import Mathlib

/-!
# Job-description extraction and comparison pipeline

A shallow embedding of the LLM-orchestration core of the browser extension
(`src/utils.js`, `src/extractor.js`, `src/compare.js`, `src/prompts.js`) and
theorems about it.

* JavaScript strings are sequences of UTF-16 code units (`JsString`).
* JavaScript values are the inductive type `JsVal`; a number is kept as the
  exact decimal `±mant · 10^exp` it was written as (the IEEE double is a
  function of that decimal, so equal `JsVal`s are deep-equal JavaScript values).
* `JSON.parse` is the platform function; it is embedded as a one-pass pushdown
  scanner over the code units that accepts the JSON grammar of ECMA-404.
* `max_retries` is an integer; an omitted argument is `none` and takes the
  default of the source.
* A pipeline run is a pure function of the outcomes of its network calls: the
  network is a function from the attempt number to the outcome of that call,
  and a run returns how the promise settled together with the trace of
  network calls and timer waits it performed.
-/

set_option linter.unusedVariables false

namespace JdPipeline

/-! ## JavaScript strings and values -/

/-- A JavaScript string, as its sequence of UTF-16 code units. -/
abbrev JsString := List Nat

/-- UTF-16 encoding of one Unicode scalar value. -/
def utf16 (c : Char) : List Nat :=
  if c.toNat < 0x10000 then [c.toNat]
  else [0xD800 + (c.toNat - 0x10000) / 0x400, 0xDC00 + (c.toNat - 0x10000) % 0x400]

/-- The JavaScript string written as the given literal. -/
def js (s : String) : JsString :=
  (s.toList.map utf16).flatten

/-- JavaScript values that the pipeline handles. `num neg mant exp` is the
number written as the decimal `(-1)^neg · mant · 10^exp`. Object properties
are kept in insertion order. -/
inductive JsVal where
  | undefined
  | null
  | bool (b : Bool)
  | num (neg : Bool) (mant : Nat) (exp : Int)
  | str (s : JsString)
  | arr (items : List JsVal)
  | obj (props : List (JsString × JsVal))

instance : Inhabited JsVal := ⟨JsVal.undefined⟩

/-- Result of the `typeof` operator. -/
inductive JsType where
  | undefined
  | object
  | boolean
  | number
  | string
  deriving DecidableEq, Repr

/-- The `typeof` operator (`typeof null` is `"object"`, and so is an array). -/
def typeofJs : JsVal → JsType
  | .undefined => .undefined
  | .null => .object
  | .bool _ => .boolean
  | .num _ _ _ => .number
  | .str _ => .string
  | .arr _ => .object
  | .obj _ => .object

/-- A decimal `mant · 10^exp` converts to the double `±0`: it is zero, or it is
at most `2^-1075`, half of the least positive double (round to nearest, ties to
even). -/
def numIsZero (mant : Nat) (exp : Int) : Bool :=
  mant == 0 || (decide (exp < 0) && decide (mant * 2 ^ 1075 ≤ 10 ^ (-exp).toNat))

/-- JavaScript truthiness (`ToBoolean`). -/
def truthy : JsVal → Bool
  | .undefined => false
  | .null => false
  | .bool b => b
  | .num _ mant exp => !numIsZero mant exp
  | .str s => !s.isEmpty
  | .arr _ => true
  | .obj _ => true

/-- Own-property lookup in a property list. -/
def lookupProp : List (JsString × JsVal) → JsString → Option JsVal
  | [], _ => none
  | (k, v) :: rest, key => if k = key then some v else lookupProp rest key

/-- Definition of a data property, `o[key] = v`: an existing key keeps its place
and gets the new value, a new key is appended. -/
def setProp : List (JsString × JsVal) → JsString → JsVal → List (JsString × JsVal)
  | [], key, v => [(key, v)]
  | (k, w) :: rest, key, v =>
    if k = key then (k, v) :: rest else (k, w) :: setProp rest key v

/-- The assignment `o[key] = v` on an object made by `{}`. For a key other
than `__proto__` it defines the own property (`setProp`). For the key
`__proto__` it runs the setter inherited from `Object.prototype`, which changes
the prototype (for an object or `null`) or does nothing, and defines no own
property. -/
def assignProp (props : List (JsString × JsVal)) (key : JsString) (v : JsVal) :
    List (JsString × JsVal) :=
  if key = js "__proto__" then props else setProp props key v

/-- The `in` operator for an object operand and a key that no built-in
prototype defines (such as `overall_eligibility` and `fields`): an own
property of an object; arrays only own index keys and `length`. -/
def hasProp : JsVal → JsString → Bool
  | .obj props, key => (lookupProp props key).isSome
  | _, _ => false

/-- Property read `v.key` for a key that no built-in prototype defines, on a
value that is not `null` or `undefined`. -/
def getProp : JsVal → JsString → JsVal
  | .obj props, key => (lookupProp props key).getD .undefined
  | _, _ => .undefined

/-- Method `String.prototype.includes`. -/
def includes (s pat : JsString) : Bool :=
  s.tails.any (fun t => pat.isPrefixOf t)

/-- Scan for `String.prototype.indexOf` with a one-unit search string. -/
def indexOfFrom (c : Nat) : JsString → Nat → Int
  | [], _ => -1
  | x :: xs, i => if x = c then (i : Int) else indexOfFrom c xs (i + 1)

/-- Call `text.indexOf(c)` for a one-unit search string: first index, or `-1`. -/
def indexOf (text : JsString) (c : Nat) : Int :=
  indexOfFrom c text 0

/-- Scan for `String.prototype.lastIndexOf` with a one-unit search string. -/
def lastIndexOfFrom (c : Nat) : JsString → Nat → Int → Int
  | [], _, best => best
  | x :: xs, i, best => lastIndexOfFrom c xs (i + 1) (if x = c then (i : Int) else best)

/-- Call `text.lastIndexOf(c)` for a one-unit search string: last index, or `-1`. -/
def lastIndexOf (text : JsString) (c : Nat) : Int :=
  lastIndexOfFrom c text 0 (-1)

/-- Call `text.substring(a, b)`: both arguments are clamped to `[0, length]` and
swapped when out of order. -/
def substring (text : JsString) (a b : Int) : JsString :=
  let a1 := min a.toNat text.length
  let b1 := min b.toNat text.length
  (text.take (max a1 b1)).drop (min a1 b1)

/-! ## `JSON.parse` -/

namespace JSON

/-- Position inside a number literal. -/
inductive NumPhase where
  | sign
  | zero
  | int
  | dot
  | frac
  | e
  | expSign
  | exp
  deriving DecidableEq

/-- Digits read so far of a number literal. -/
structure NumAcc where
  neg : Bool
  mant : Nat
  fracDigits : Nat
  expNeg : Bool
  expVal : Nat

/-- The number a completed literal denotes. -/
def NumAcc.value (a : NumAcc) : JsVal :=
  .num a.neg a.mant ((if a.expNeg then -(a.expVal : Int) else (a.expVal : Int)) - a.fracDigits)

/-- A number literal may end in this phase. -/
def NumPhase.accepting : NumPhase → Bool
  | .zero => true
  | .int => true
  | .frac => true
  | .exp => true
  | _ => false

/-- What the scanner is in the middle of. -/
inductive Lex where
  | idle
  | str (acc : JsString)
  | esc (acc : JsString)
  | uni (acc : JsString) (code : Nat) (left : Nat)
  | num (ph : NumPhase) (a : NumAcc)
  | lit (rest : JsString) (v : JsVal)

/-- An open container. `objKey` is an object whose next member's key has been
read and whose value is still to come. -/
inductive Frame where
  | arr (items : List JsVal)
  | obj (props : List (JsString × JsVal))
  | objKey (props : List (JsString × JsVal)) (key : JsString)

/-- What the grammar allows next. -/
inductive Expect where
  | value
  | valueOrClose
  | keyOrClose
  | key
  | colon
  | commaOrClose
  | done (v : JsVal)

/-- State of the scanner. -/
structure PState where
  lex : Lex
  expect : Expect
  stack : List Frame

/-- Initial state: a value is expected, nothing is open. -/
def init : PState := ⟨.idle, .value, []⟩

/-- A value may start here. -/
def Expect.wantsValue : Expect → Bool
  | .value => true
  | .valueOrClose => true
  | _ => false

/-- A member key may start here. -/
def Expect.wantsKey : Expect → Bool
  | .keyOrClose => true
  | .key => true
  | _ => false

/-- A completed value is handed to the innermost open container, or becomes
the result when nothing is open. -/
def deliver (v : JsVal) : List Frame → Option PState
  | [] => some ⟨.idle, .done v, []⟩
  | .arr items :: rest => some ⟨.idle, .commaOrClose, .arr (items ++ [v]) :: rest⟩
  | .objKey props k :: rest => some ⟨.idle, .commaOrClose, .obj (setProp props k v) :: rest⟩
  | .obj _ :: _ => none

/-- JSON whitespace: space, tab, line feed, carriage return. -/
def isWs (c : Nat) : Bool :=
  c == 0x20 || c == 0x09 || c == 0x0A || c == 0x0D

/-- Value of a decimal digit code unit. -/
def digitVal (c : Nat) : Option Nat :=
  if 0x30 ≤ c ∧ c ≤ 0x39 then some (c - 0x30) else none

/-- Value of a hexadecimal digit code unit. -/
def hexVal (c : Nat) : Option Nat :=
  if 0x30 ≤ c ∧ c ≤ 0x39 then some (c - 0x30)
  else if 0x41 ≤ c ∧ c ≤ 0x46 then some (c - 0x41 + 10)
  else if 0x61 ≤ c ∧ c ≤ 0x66 then some (c - 0x61 + 10)
  else none

/-- What a code unit read between tokens is. -/
inductive Start where
  | ws
  | quote
  | lbrace
  | rbrace
  | lbracket
  | rbracket
  | comma
  | colon
  | minus
  | zero
  | digit (d : Nat)
  | t
  | f
  | n
  | other

/-- Classification of a code unit read between tokens. -/
def classify (c : Nat) : Start :=
  if isWs c then .ws
  else if c = 0x22 then .quote
  else if c = 0x7B then .lbrace
  else if c = 0x7D then .rbrace
  else if c = 0x5B then .lbracket
  else if c = 0x5D then .rbracket
  else if c = 0x2C then .comma
  else if c = 0x3A then .colon
  else if c = 0x2D then .minus
  else if c = 0x30 then .zero
  else if 0x31 ≤ c ∧ c ≤ 0x39 then .digit (c - 0x30)
  else if c = 0x74 then .t
  else if c = 0x66 then .f
  else if c = 0x6E then .n
  else .other

/-- One code unit read between tokens. -/
def stepIdle (expect : Expect) (stack : List Frame) (c : Nat) : Option PState :=
  match classify c with
  | .ws => some ⟨.idle, expect, stack⟩
  | .quote =>
    if expect.wantsValue || expect.wantsKey then some ⟨.str [], expect, stack⟩ else none
  | .lbrace =>
    if expect.wantsValue then some ⟨.idle, .keyOrClose, .obj [] :: stack⟩ else none
  | .lbracket =>
    if expect.wantsValue then some ⟨.idle, .valueOrClose, .arr [] :: stack⟩ else none
  | .rbrace =>
    match expect, stack with
    | .keyOrClose, .obj props :: rest => deliver (.obj props) rest
    | .commaOrClose, .obj props :: rest => deliver (.obj props) rest
    | _, _ => none
  | .rbracket =>
    match expect, stack with
    | .valueOrClose, .arr items :: rest => deliver (.arr items) rest
    | .commaOrClose, .arr items :: rest => deliver (.arr items) rest
    | _, _ => none
  | .comma =>
    match expect, stack with
    | .commaOrClose, .arr items :: rest => some ⟨.idle, .value, .arr items :: rest⟩
    | .commaOrClose, .obj props :: rest => some ⟨.idle, .key, .obj props :: rest⟩
    | _, _ => none
  | .colon =>
    match expect with
    | .colon => some ⟨.idle, .value, stack⟩
    | _ => none
  | .minus =>
    if expect.wantsValue then some ⟨.num .sign ⟨true, 0, 0, false, 0⟩, expect, stack⟩ else none
  | .zero =>
    if expect.wantsValue then some ⟨.num .zero ⟨false, 0, 0, false, 0⟩, expect, stack⟩ else none
  | .digit d =>
    if expect.wantsValue then some ⟨.num .int ⟨false, d, 0, false, 0⟩, expect, stack⟩ else none
  | .t =>
    if expect.wantsValue then some ⟨.lit [0x72, 0x75, 0x65] (.bool true), expect, stack⟩
    else none
  | .f =>
    if expect.wantsValue then some ⟨.lit [0x61, 0x6C, 0x73, 0x65] (.bool false), expect, stack⟩
    else none
  | .n =>
    if expect.wantsValue then some ⟨.lit [0x75, 0x6C, 0x6C] .null, expect, stack⟩ else none
  | .other => none

/-- A string literal is complete: it is a member key or a value. -/
def endString (acc : JsString) (expect : Expect) (stack : List Frame) : Option PState :=
  if expect.wantsKey then
    match stack with
    | .obj props :: rest => some ⟨.idle, .colon, .objKey props acc :: rest⟩
    | _ => none
  else deliver (.str acc) stack

/-- One code unit read after a backslash inside a string literal. -/
def stepEsc (acc : JsString) (c : Nat) : Option Lex :=
  if c = 0x22 then some (.str (acc ++ [0x22]))
  else if c = 0x5C then some (.str (acc ++ [0x5C]))
  else if c = 0x2F then some (.str (acc ++ [0x2F]))
  else if c = 0x62 then some (.str (acc ++ [0x08]))
  else if c = 0x66 then some (.str (acc ++ [0x0C]))
  else if c = 0x6E then some (.str (acc ++ [0x0A]))
  else if c = 0x72 then some (.str (acc ++ [0x0D]))
  else if c = 0x74 then some (.str (acc ++ [0x09]))
  else if c = 0x75 then some (.uni acc 0 4)
  else none

/-- One code unit read inside a number literal that continues the literal. -/
def stepNum (ph : NumPhase) (a : NumAcc) (c : Nat) : Option Lex :=
  match digitVal c with
  | some d =>
    match ph with
    | .sign => if d = 0 then some (.num .zero a) else some (.num .int { a with mant := d })
    | .zero => none
    | .int => some (.num .int { a with mant := a.mant * 10 + d })
    | .dot => some (.num .frac { a with mant := a.mant * 10 + d, fracDigits := a.fracDigits + 1 })
    | .frac => some (.num .frac { a with mant := a.mant * 10 + d, fracDigits := a.fracDigits + 1 })
    | .e => some (.num .exp { a with expVal := d })
    | .expSign => some (.num .exp { a with expVal := d })
    | .exp => some (.num .exp { a with expVal := a.expVal * 10 + d })
  | none =>
    if c = 0x2E then
      match ph with
      | .zero => some (.num .dot a)
      | .int => some (.num .dot a)
      | _ => none
    else if c = 0x65 ∨ c = 0x45 then
      match ph with
      | .zero => some (.num .e a)
      | .int => some (.num .e a)
      | .frac => some (.num .e a)
      | _ => none
    else if c = 0x2B ∨ c = 0x2D then
      match ph with
      | .e => some (.num .expSign { a with expNeg := decide (c = 0x2D) })
      | _ => none
    else none

/-- A code unit that can only continue a number literal. -/
def isNumUnit (c : Nat) : Bool :=
  (digitVal c).isSome || c == 0x2E || c == 0x65 || c == 0x45 || c == 0x2B || c == 0x2D

/-- One code unit of the text. `none` is a `SyntaxError`. -/
def step (st : PState) (c : Nat) : Option PState :=
  match st.lex with
  | .idle => stepIdle st.expect st.stack c
  | .str acc =>
    if c = 0x22 then endString acc st.expect st.stack
    else if c = 0x5C then some { st with lex := .esc acc }
    else if c < 0x20 then none
    else some { st with lex := .str (acc ++ [c]) }
  | .esc acc => (stepEsc acc c).map (fun l => { st with lex := l })
  | .uni acc code left =>
    match hexVal c with
    | some h =>
      if left ≤ 1 then some { st with lex := .str (acc ++ [code * 16 + h]) }
      else some { st with lex := .uni acc (code * 16 + h) (left - 1) }
    | none => none
  | .num ph a =>
    if isNumUnit c then (stepNum ph a c).map (fun l => { st with lex := l })
    else if ph.accepting then
      match deliver a.value st.stack with
      | some st1 => stepIdle st1.expect st1.stack c
      | none => none
    else none
  | .lit rest v =>
    match rest with
    | [] => none
    | r :: rs =>
      if c = r then
        match rs with
        | [] => deliver v st.stack
        | _ :: _ => some { st with lex := .lit rs v }
      else none

/-- Reads the code units in order. -/
def run : PState → JsString → Option PState
  | st, [] => some st
  | st, c :: cs =>
    match step st c with
    | some st1 => run st1 cs
    | none => none

/-- End of the text: the result, when exactly one value was read. -/
def finish (st : PState) : Option JsVal :=
  match st.lex, st.expect, st.stack with
  | .idle, .done v, [] => some v
  | .num ph a, _, [] => if ph.accepting then some a.value else none
  | _, _, _ => none

/-- The platform's `JSON.parse(text)` for a string argument; `none` is a thrown
`SyntaxError`. -/
def parse (text : JsString) : Option JsVal :=
  match run init text with
  | some st => finish st
  | none => none

end JSON

/-! ## `src/utils.js` -/

/-- Function `tryParseJson(text)`: the span from the first `{` to the last `}` is handed
to `JSON.parse`; every failure gives `null`. -/
def tryParseJson (text : JsVal) : JsVal :=
  if !truthy text || typeofJs text ≠ .string then .null
  else
    match text with
    | .str s =>
      let start := indexOf s 0x7B
      let stop := lastIndexOf s 0x7D
      if start = -1 ∨ stop = -1 ∨ stop ≤ start then .null
      else
        let snippet := substring s start (stop + 1)
        match JSON.parse snippet with
        | some v => v
        | none => .null
    | _ => .null


/-! ## `src/prompts.js`: schema and canned data -/

/-- A field schema: the entries of the schema object (field name, type hint),
in property order. -/
abbrev Schema := List (JsString × JsString)

/-- Constant `EXTRACTION_SCHEMA`: field names and type hints, in declaration order. -/
def EXTRACTION_SCHEMA : Schema := [
  (js "title", js "string | null"),
  (js "company_name", js "string | null"),
  (js "location", js "string | null"),
  (js "country_hint", js "string | null"),
  (js "remote", js "string | null"),
  (js "employment_type", js "string | null"),
  (js "salary_text", js "string | null"),
  (js "salary_min_cad", js "number | null"),
  (js "salary_max_cad", js "number | null"),
  (js "experience_required_text", js "string | null"),
  (js "experience_years_min", js "number | null"),
  (js "experience_years_max", js "number | null"),
  (js "spoken_languages", js "list[string] | []"),
  (js "programming_languages", js "list[string] | []"),
  (js "required_skills", js "list[string] | []"),
  (js "preferred_skills", js "list[string] | []"),
  (js "responsibilities", js "list[string] | []"),
  (js "qualifications", js "list[string] | []"),
  (js "min_education", js "string | null"),
  (js "seniority_level", js "string | null"),
  (js "company_size", js "string | null"),
  (js "posting_date", js "string | null"),
  (js "closing_date", js "string | null"),
  (js "application_instructions", js "string | null"),
  (js "job_field", js "string | null")]

/-- Constant `sampleExtractedData`, the canned extraction result. -/
def sampleExtractedData : JsVal :=
  .obj [
    (js "title", .str (js "Full Stack Developer - Trauma-Informed Solutions")),
    (js "company_name", .str (js "VESTA Social Innovation Technologies")),
    (js "location", .str (js "Toronto")),
    (js "country_hint", .str (js "Canada")),
    (js "remote", .str (js "Flexible remote with occasional in-person collaboration")),
    (js "employment_type", .null),
    (js "salary_text", .str (js "$100,000-$115,000 + benefits (commensurate with experience)")),
    (js "salary_min_cad", .num false 100000 0),
    (js "salary_max_cad", .num false 115000 0),
    (js "experience_required_text", .str (js "3+ years of experience as a full stack developer")),
    (js "experience_years_min", .num false 3 0),
    (js "experience_years_max", .null),
    (js "spoken_languages", .arr []),
    (js "programming_languages", .arr [
      .str (js "JavaScript"),
      .str (js "TypeScript"),
      .str (js "HTML5"),
      .str (js "CSS3")]),
    (js "required_skills", .arr [
      .str (js "Full stack development"),
      .str (js "JavaScript/TypeScript"),
      .str (js "HTML5"),
      .str (js "CSS3"),
      .str (js "React JS"),
      .str (js "Node.js"),
      .str (js "Express"),
      .str (js "MySQL"),
      .str (js "MariaDB or similar databases"),
      .str (js "Version control (Git)"),
      .str (js "CI/CD practices"),
      .str (js "Cloud platforms (AWS, Azure, GCP)"),
      .str (js "Web security"),
      .str (js "Authentication and authorization"),
      .str (js "Accessibility standards (WCAG 2.1)"),
      .str (js "Responsive design"),
      .str (js "Excellent communication"),
      .str (js "Teamwork"),
      .str (js "Self-direction"),
      .str (js "Emotional intelligence"),
      .str (js "Cross-cultural sensitivity")]),
    (js "preferred_skills", .arr [
      .str (js "Passion for technology for social impact"),
      .str (js "Commitment to inclusive, ethical product development")]),
    (js "responsibilities", .arr [
      .str (js "Design, deploy, and maintain reliable and scalable full-stack software solutions with emphasis on security, performance, and usability"),
      .str (js "Work closely with the VESTA team and fractional development team to integrate user-focused and culturally sensitive solutions"),
      .str (js "Monitor, test, and optimize application performance and security"),
      .str (js "Troubleshoot, debug, and resolve full stack issues"),
      .str (js "Continuously enhance platform functionality to meet evolving user and project needs")]),
    (js "qualifications", .arr []),
    (js "min_education", .null),
    (js "seniority_level", .str (js "Senior")),
    (js "company_size", .null),
    (js "posting_date", .null),
    (js "closing_date", .null),
    (js "application_instructions", .str (js "To apply, send your resume and a brief cover letter to ContactUs@vestasit.com with subject line “Full Stack Developer – Application.”")),
    (js "job_field", .str (js "Software Development"))]

/-- Constant `sampleComparisonResult`, the canned comparison result. -/
def sampleComparisonResult : JsVal :=
  .obj [
    (js "overall_eligibility", .str (js "red")),
    (js "summary_explanation", .str (js "Major disqualifiers: JD requires 3+ years and \x27Senior\x27 level while candidate has max 2 years and prefers Entry/Junior. Location, remote, job field, and salary are favorable; several JD fields are unknown.")),
    (js "fields", .obj [
      (js "location", .obj [
        (js "color", .str (js "green")),
        (js "explanation", .str (js "location \x27Toronto\x27 with country_hint \x27Canada\x27 matches candidate country \x27Canada\x27.")),
        (js "evidence", .str (js "Toronto"))]),
      (js "remote", .obj [
        (js "color", .str (js "green")),
        (js "explanation", .str (js "remote \x27Flexible remote with occasional in-person collaboration\x27 matches candidate preferred_work_mode [\x27remote\x27,\x27hybrid\x27].")),
        (js "evidence", .str (js "Flexible remote with occasional in-person collaboration"))]),
      (js "salary_min_cad", .obj [
        (js "color", .str (js "green")),
        (js "explanation", .str (js "salary_min_cad (100000) is above candidate desired_salary_cad (65000) and above candidate max_salary_cad (90000), so pay is favorable to the candidate.")),
        (js "evidence", .num false 100000 0)]),
      (js "salary_max_cad", .obj [
        (js "color", .str (js "green")),
        (js "explanation", .str (js "salary_max_cad (115000) is above candidate desired_salary_cad (65000) and above candidate max_salary_cad (90000), so pay is favorable to the candidate.")),
        (js "evidence", .num false 115000 0)]),
      (js "experience_years_min", .obj [
        (js "color", .str (js "red")),
        (js "explanation", .str (js "experience_years_min (3) > candidate max_experience_years (2), indicating the candidate does not meet the JD\x27s minimum experience requirement.")),
        (js "evidence", .num false 3 0)]),
      (js "seniority_level", .obj [
        (js "color", .str (js "red")),
        (js "explanation", .str (js "seniority_level \x27Senior\x27 conflicts with candidate preferred_seniority_levels [\x27Entry\x27,\x27Junior\x27] and candidate experience range.")),
        (js "evidence", .str (js "Senior"))]),
      (js "programming_languages", .obj [
        (js "color", .str (js "yellow")),
        (js "explanation", .str (js "programming_languages [\x27JavaScript\x27,\x27TypeScript\x27,\x27HTML5\x27,\x27CSS3\x27] partially overlap with candidate tech stack (comfortable_with includes \x27react\x27 but candidate profile does not explicitly list \x27JavaScript\x27 or \x27TypeScript\x27).")),
        (js "evidence", .arr [
          .str (js "JavaScript"),
          .str (js "TypeScript"),
          .str (js "HTML5"),
          .str (js "CSS3")])]),
      (js "required_skills", .obj [
        (js "color", .str (js "yellow")),
        (js "explanation", .str (js "required_skills include backend frameworks and DBs (\x27Node.js\x27,\x27Express\x27,\x27MySQL\x27,\x27MariaDB\x27) while candidate comfortable_with includes [\x27react\x27,\x27sql\x27,\x27docker\x27] — partial overlap (sql/react) but missing many listed backend specifics.")),
        (js "evidence", .arr [
          .str (js "Full stack development"),
          .str (js "JavaScript/TypeScript"),
          .str (js "HTML5"),
          .str (js "CSS3"),
          .str (js "React JS"),
          .str (js "Node.js"),
          .str (js "Express"),
          .str (js "MySQL"),
          .str (js "MariaDB or similar databases"),
          .str (js "Version control (Git)"),
          .str (js "CI/CD practices"),
          .str (js "Cloud platforms (AWS, Azure, GCP)"),
          .str (js "Web security"),
          .str (js "Authentication and authorization"),
          .str (js "Accessibility standards (WCAG 2.1)"),
          .str (js "Responsive design"),
          .str (js "Excellent communication"),
          .str (js "Teamwork"),
          .str (js "Self-direction"),
          .str (js "Emotional intelligence"),
          .str (js "Cross-cultural sensitivity")])]),
      (js "job_field", .obj [
        (js "color", .str (js "green")),
        (js "explanation", .str (js "job_field \x27Software Development\x27 matches candidate job_field [\x27software development\x27,\x27web development\x27].")),
        (js "evidence", .str (js "Software Development"))]),
      (js "employment_type", .obj [
        (js "color", .str (js "grey")),
        (js "explanation", .str (js "employment_type is null in JD; candidate allows [\x27full-time\x27,\x27internship\x27], unable to confirm match.")),
        (js "evidence", .null)]),
      (js "min_education", .obj [
        (js "color", .str (js "grey")),
        (js "explanation", .str (js "min_education is null in JD; candidate highest_education is \x27Bachelors in Computer Engineering\x27, unable to compare.")),
        (js "evidence", .null)]),
      (js "company_size", .obj [
        (js "color", .str (js "grey")),
        (js "explanation", .str (js "company_size is null in JD; candidate prefers companies with min_employees_in_company 50 and large companies, unable to compare.")),
        (js "evidence", .null)]),
      (js "spoken_languages", .obj [
        (js "color", .str (js "grey")),
        (js "explanation", .str (js "spoken_languages is [] (unspecified) in JD versus candidate spoken_languages [\x27English\x27], unable to confirm language requirements.")),
        (js "evidence", .arr [])])])]

/-! ## The completion client: outcomes, traces, results -/

/-- A thrown `Error`, identified by its message. -/
structure JsError where
  message : JsString

/-- Outcome of one network call, as far as the client looks at it.
`threw`: `fetch` (or reading the body, or indexing `data.choices`) throws.
`notOk`: the response has a non-success status; `errorBody` is its text.
`ok`: success status; `content` is `data.choices[0]?.message?.content` and
`usage` is `data.usage`. -/
inductive Outcome where
  | threw (e : JsError)
  | notOk (status : Nat) (errorBody : JsString)
  | ok (content : JsVal) (usage : JsVal)

/-- The network: the outcome of the call made by attempt number `n`. -/
abbrev Network := Nat → Outcome

/-- Observable effects of a run. -/
inductive Event where
  | fetch (attempt : Nat)
  | wait (ms : Nat)
  deriving DecidableEq, Repr

/-- How the returned promise settles. -/
inductive Settled where
  | resolved (v : JsVal)
  | rejected (e : JsError)

/-- A finished run: the settlement and the effects in the order they happened. -/
structure Run where
  settled : Settled
  trace : List Event

/-- The effects `evs` happened before the rest of the run. -/
def Run.after (evs : List Event) : Option Run → Option Run
  | some r => some ⟨r.settled, evs ++ r.trace⟩
  | none => none

/-- Number of network calls in a trace. -/
def fetchCount : List Event → Nat
  | [] => 0
  | .fetch _ :: rest => fetchCount rest + 1
  | .wait _ :: rest => fetchCount rest

/-- Number of timer waits in a trace. -/
def waitCount : List Event → Nat
  | [] => 0
  | .fetch _ :: rest => waitCount rest
  | .wait _ :: rest => waitCount rest + 1

/-- The object `{ data: data, usage: usage }`. -/
def reply (data usage : JsVal) : JsVal :=
  .obj [(js "data", data), (js "usage", usage)]

/-- The object `{ total_tokens: 0 }`. -/
def zeroUsage : JsVal :=
  .obj [(js "total_tokens", .num false 0 0)]

/-- The error thrown for a non-success status:
`API request failed with status <status>: <errorBody>`. -/
def apiError (status : Nat) (errorBody : JsString) : JsError :=
  ⟨js "API request failed with status " ++ js (toString status) ++ js ": " ++ errorBody⟩

/-- How the body of the `try` block ends. -/
inductive TryResult where
  | returned (v : JsVal)
  | fellThrough
  | thrown (e : JsError)

/-! ## `src/extractor.js` -/

/-- The default written by the fallback loop for one type hint:
`v.includes("list") ? [] : null`. -/
def defaultFor (hint : JsString) : JsVal :=
  if includes hint (js "list") then .arr [] else .null

/-- The fallback loop of `extractWithLlm`:
`empty = {}; for ([k, v] of entries) empty[k] = v.includes("list") ? [] : null`. -/
def emptyFromSchema (schema : Schema) : JsVal :=
  .obj (schema.foldl (fun empty kv => assignProp empty kv.1 (defaultFor kv.2)) [])

/-- The `try` block of one attempt of `extractWithLlm`. -/
def extractTry : Outcome → TryResult
  | .threw e => .thrown e
  | .notOk status errorBody => .thrown (apiError status errorBody)
  | .ok content usage =>
    if truthy content then
      let parsed := tryParseJson content
      if truthy parsed && typeofJs parsed == .object then .returned (reply parsed usage)
      else .fellThrough
    else .fellThrough

/-- The retry loop of `extractWithLlm` from attempt number `attempt` on, and
the code after the loop. `fuel` bounds the number of iterations; `none` means
the bound was too small. -/
def extractLoop (schema : Schema) (net : Network) (max_retries : Int) :
    Nat → Nat → Option Run
  | 0, _ => none
  | fuel + 1, attempt =>
    if (attempt : Int) ≤ max_retries then
      match extractTry (net attempt) with
      | .returned v => some ⟨.resolved v, [.fetch attempt]⟩
      | .fellThrough =>
        Run.after [.fetch attempt] (extractLoop schema net max_retries fuel (attempt + 1))
      | .thrown e =>
        if (attempt : Int) = max_retries then some ⟨.rejected e, [.fetch attempt]⟩
        else
          Run.after [.fetch attempt, .wait 500]
            (extractLoop schema net max_retries fuel (attempt + 1))
    else some ⟨.resolved (reply (emptyFromSchema schema) zeroUsage), []⟩

/-- Function `extractWithLlm(jd_text, max_retries = 2)`. The module constants
`USE_SAMPLE_DATA` (from the configuration module) and `EXTRACTION_SCHEMA` are
parameters; an omitted `max_retries` is `none`. The prompt built from
`jd_text` only goes into the request, whose answer is given by `net`. -/
def extractWithLlm (USE_SAMPLE_DATA : Bool) (schema : Schema) (net : Network)
    (jd_text : JsString) (max_retries : Option Int) : Option Run :=
  let max_retries := max_retries.getD 2
  if USE_SAMPLE_DATA then
    some ⟨.resolved (reply sampleExtractedData zeroUsage), [.wait 500]⟩
  else extractLoop schema net max_retries (max_retries.toNat + 1) 1

/-- Function `extract(jd_text)`: `extractWithLlm(jd_text)` with the module's schema. -/
def extract (USE_SAMPLE_DATA : Bool) (net : Network) (jd_text : JsString) : Option Run :=
  extractWithLlm USE_SAMPLE_DATA EXTRACTION_SCHEMA net jd_text none

/-! ## `src/compare.js` -/

/-- Function `validateOutputStruct(parsed)`. -/
def validateOutputStruct (parsed : JsVal) : Bool :=
  if !truthy parsed || typeofJs parsed != .object then false
  else if !hasProp parsed (js "overall_eligibility") || !hasProp parsed (js "fields") then false
  else typeofJs (getProp parsed (js "fields")) == .object

/-- The fallback object built in the `catch` block of `compareJd`. -/
def compareFallback : JsVal :=
  .obj [
    (js "overall_eligibility", .str (js "grey")),
    (js "summary_explanation",
      .str (js "Comparator failed to return a valid structured result.")),
    (js "fields", .obj [])]

/-- The `try` block of one attempt of `compareJd`. -/
def compareTry : Outcome → TryResult
  | .threw e => .thrown e
  | .notOk status errorBody => .thrown (apiError status errorBody)
  | .ok content usage =>
    if truthy content then
      let parsed := tryParseJson content
      if validateOutputStruct parsed then .returned (reply parsed usage)
      else .fellThrough
    else .fellThrough

/-- The retry loop of `compareJd` from attempt number `attempt` on. Nothing
follows the loop, so leaving it resolves with `undefined`. `fuel` bounds the
number of iterations; `none` means the bound was too small. -/
def compareLoop (net : Network) (max_retries : Int) : Nat → Nat → Option Run
  | 0, _ => none
  | fuel + 1, attempt =>
    if (attempt : Int) ≤ max_retries then
      match compareTry (net attempt) with
      | .returned v => some ⟨.resolved v, [.fetch attempt]⟩
      | .fellThrough =>
        Run.after [.fetch attempt] (compareLoop net max_retries fuel (attempt + 1))
      | .thrown _ =>
        if (attempt : Int) = max_retries then
          some ⟨.resolved (reply compareFallback zeroUsage), [.fetch attempt]⟩
        else
          Run.after [.fetch attempt, .wait 500] (compareLoop net max_retries fuel (attempt + 1))
    else some ⟨.resolved .undefined, []⟩

/-- Function `compareJd(extracted_json, profile_json = null, max_retries = 1)`. The
module constant `USE_SAMPLE_DATA` is a parameter; an omitted argument is
`none`. The prompt built from `extracted_json` and the profile only goes into
the request, whose answer is given by `net`. -/
def compareJd (USE_SAMPLE_DATA : Bool) (net : Network) (extracted_json : JsVal)
    (profile_json : Option JsVal) (max_retries : Option Int) : Option Run :=
  let max_retries := max_retries.getD 1
  if USE_SAMPLE_DATA then
    some ⟨.resolved (reply sampleComparisonResult zeroUsage), [.wait 500]⟩
  else compareLoop net max_retries (max_retries.toNat + 1) 1

/-- Braces are balanced: reading left to right, no `}` closes more than was
opened, and everything opened is closed. `depth` is the number of open braces. -/
def bracesBalancedFrom : JsString → Nat → Bool
  | [], depth => depth == 0
  | c :: cs, depth =>
    if c = 0x7B then bracesBalancedFrom cs (depth + 1)
    else if c = 0x7D then
      match depth with
      | 0 => false
      | d + 1 => bracesBalancedFrom cs d
    else bracesBalancedFrom cs depth

/-- The braces of `text` are balanced. -/
def bracesBalanced (text : JsString) : Bool :=
  bracesBalancedFrom text 0

/-! ## `src/prompts.js`: the extraction prompt -/

namespace JSON

/-- Four lower-case hexadecimal digits of a code unit. -/
def hex4 (c : Nat) : JsString :=
  [c / 4096 % 16, c / 256 % 16, c / 16 % 16, c % 16].map
    (fun d => if d < 10 then 0x30 + d else 0x61 + (d - 10))

/-- Text of one code unit that is not a surrogate inside a quoted string. -/
def quoteUnit (c : Nat) : JsString :=
  if c = 0x08 then [0x5C, 0x62]
  else if c = 0x09 then [0x5C, 0x74]
  else if c = 0x0A then [0x5C, 0x6E]
  else if c = 0x0C then [0x5C, 0x66]
  else if c = 0x0D then [0x5C, 0x72]
  else if c = 0x22 then [0x5C, 0x22]
  else if c = 0x5C then [0x5C, 0x5C]
  else if c < 0x20 then [0x5C, 0x75] ++ hex4 c
  else [c]

/-- The code unit is a leading (high) surrogate. -/
def isHighSurrogate (c : Nat) : Bool :=
  decide (0xD800 ≤ c) && decide (c ≤ 0xDBFF)

/-- The code unit is a trailing (low) surrogate. -/
def isLowSurrogate (c : Nat) : Bool :=
  decide (0xDC00 ≤ c) && decide (c ≤ 0xDFFF)

/-- Body of `QuoteJSONString`: escapes for the quote, the backslash and control
characters; a surrogate pair is copied, a lone surrogate is written as a
`\u` escape. -/
def quoteUnits : JsString → JsString
  | [] => []
  | [c] =>
    if isHighSurrogate c || isLowSurrogate c then [0x5C, 0x75] ++ hex4 c else quoteUnit c
  | c :: d :: rest =>
    if isHighSurrogate c then
      if isLowSurrogate d then c :: d :: quoteUnits rest
      else [0x5C, 0x75] ++ hex4 c ++ quoteUnits (d :: rest)
    else if isLowSurrogate c then [0x5C, 0x75] ++ hex4 c ++ quoteUnits (d :: rest)
    else quoteUnit c ++ quoteUnits (d :: rest)

/-- The abstract operation `QuoteJSONString`. -/
def quote (s : JsString) : JsString :=
  [0x22] ++ quoteUnits s ++ [0x22]

/-- Indentation at nesting depth `depth` for a gap of two spaces. -/
def indentOf (depth : Nat) : JsString :=
  List.replicate (2 * depth) 0x20

/-- A container with the given opening and closing unit and the texts of its
members, laid out as `JSON.stringify` does for a non-empty gap. -/
def layout (opening closing : Nat) (depth : Nat) (parts : List JsString) : JsString :=
  match parts with
  | [] => [opening, closing]
  | _ :: _ =>
    [opening, 0x0A] ++ indentOf (depth + 1) ++
      (([0x2C, 0x0A] ++ indentOf (depth + 1)).intercalate parts) ++
      [0x0A] ++ indentOf depth ++ [closing]

mutual
/-- Text of a value at nesting depth `depth` (`SerializeJSONProperty` with a gap
of two spaces). `none`: the value is `undefined`, or it contains a number
(number formatting is not part of this embedding). -/
def stringifyAt : Nat → JsVal → Option JsString
  | _, .undefined => none
  | _, .null => some (js "null")
  | _, .bool true => some (js "true")
  | _, .bool false => some (js "false")
  | _, .num _ _ _ => none
  | _, .str s => some (quote s)
  | depth, .arr items =>
    match stringifyItems (depth + 1) items with
    | some parts => some (layout 0x5B 0x5D depth parts)
    | none => none
  | depth, .obj props =>
    match stringifyProps (depth + 1) props with
    | some parts => some (layout 0x7B 0x7D depth parts)
    | none => none
/-- Texts of the elements of an array; an `undefined` element is written
`null`. -/
def stringifyItems : Nat → List JsVal → Option (List JsString)
  | _, [] => some []
  | depth, .undefined :: rest =>
    match stringifyItems depth rest with
    | some parts => some (js "null" :: parts)
    | none => none
  | depth, v :: rest =>
    match stringifyAt depth v, stringifyItems depth rest with
    | some part, some parts => some (part :: parts)
    | _, _ => none
/-- Texts `"key": value` of the properties of an object; a property whose value
is `undefined` is left out. -/
def stringifyProps : Nat → List (JsString × JsVal) → Option (List JsString)
  | _, [] => some []
  | depth, (_, .undefined) :: rest => stringifyProps depth rest
  | depth, (k, v) :: rest =>
    match stringifyAt depth v, stringifyProps depth rest with
    | some part, some parts => some ((quote k ++ [0x3A, 0x20] ++ part) :: parts)
    | _, _ => none
end

/-- The platform's `JSON.stringify(value, null, 2)` for a value without
numbers; `none` when the value is `undefined` or contains a number. -/
def stringify (value : JsVal) : Option JsString :=
  stringifyAt 0 value

end JSON

/-- White space and line terminators removed by `String.prototype.trim`. -/
def isJsSpace (c : Nat) : Bool :=
  c == 0x09 || c == 0x0A || c == 0x0B || c == 0x0C || c == 0x0D || c == 0x20 ||
    c == 0xA0 || c == 0x1680 || (decide (0x2000 ≤ c) && decide (c ≤ 0x200A)) ||
    c == 0x2028 || c == 0x2029 || c == 0x202F || c == 0x205F || c == 0x3000 || c == 0xFEFF

/-- Method `String.prototype.trim`. -/
def trim (s : JsString) : JsString :=
  ((s.dropWhile isJsSpace).reverse.dropWhile isJsSpace).reverse

/-- Constant `EXTRACTION_INSTRUCTIONS_HEADER`. -/
def EXTRACTION_INSTRUCTIONS_HEADER : JsString :=
  js "Extract the following fields from the job description and return them as a JSON object EXACTLY " ++
  js "following the schema below. If a field is missing, set it to null (scalar) or [] (list)."

/-- Function `_schema_fields_text(schema)`: one `- name: hint` per entry, joined
with line feeds. -/
def _schema_fields_text (schema : Schema) : JsString :=
  (js "\n").intercalate (schema.map (fun kv => js "- " ++ kv.1 ++ js ": " ++ kv.2))

/-- The object `template_obj` built inside `get_extraction_prompt`:
`template_obj = {}; for ([k, v] of entries) template_obj[k] = v.includes("list") ? [] : null`. -/
def template_obj (schema : Schema) : JsVal :=
  .obj (schema.foldl
    (fun template kv =>
      assignProp template kv.1 (if includes kv.2 (js "list") then .arr [] else .null))
    [])

/-- Function `get_extraction_prompt(jd_text, schema = EXTRACTION_SCHEMA)`; an
omitted `schema` is `none`. `none` as result: `JSON.stringify` gave no text. -/
def get_extraction_prompt (jd_text : JsString) (schema : Option Schema) : Option JsString :=
  let schema := schema.getD EXTRACTION_SCHEMA
  let fields_text := _schema_fields_text schema
  match JSON.stringify (template_obj schema) with
  | some template_json =>
    some (
      EXTRACTION_INSTRUCTIONS_HEADER ++ js "\n\n" ++
      js "Schema fields (name: type/hint):\n\n" ++
      fields_text ++ js "\n\n" ++
      js "Please return a single JSON object following this template EXACTLY:\n\n" ++
      template_json ++ js "\n\n" ++
      js "Job description:\n--------\n" ++
      trim jd_text ++ js "\n" ++
      js "--------\n\n" ++
      js "Return ONLY the JSON object.")
  | none => none

/-! ## Predicates used in the proofs -/

namespace JSON

/-- The frame belongs to an object. -/
def Frame.isObj : Frame → Bool
  | .arr _ => false
  | .obj _ => true
  | .objKey _ _ => true

/-- The outermost open container is an object. -/
def rootIsObj : List Frame → Bool
  | [] => false
  | [f] => f.isObj
  | _ :: g :: rest => rootIsObj (g :: rest)

/-- The scanner has read exactly one complete object. -/
def ObjDone (st : PState) : Prop :=
  st.lex = .idle ∧ st.stack = [] ∧ ∃ props, st.expect = .done (.obj props)

/-- The value is not an object. -/
def notObj : JsVal → Bool
  | .obj _ => false
  | _ => true

/-- The scanner is reading, or has read, a top-level value that is not an
object. -/
def nonObj (st : PState) : Prop :=
  match st.stack with
  | [] =>
    match st.lex, st.expect with
    | .idle, .done v => notObj v = true
    | .idle, _ => False
    | .lit _ v, _ => notObj v = true
    | _, _ => True
  | f :: rest => rootIsObj (f :: rest) = false

end JSON

/-- The attempt is a transport failure: the call throws or returns a
non-success status. -/
def Outcome.isTransportFailure : Outcome → Bool
  | .threw _ => true
  | .notOk _ _ => true
  | .ok _ _ => false

/-- The error a transport failure raises inside the `try` block. -/
def Outcome.error : Outcome → Option JsError
  | .threw e => some e
  | .notOk status errorBody => some (apiError status errorBody)
  | .ok _ _ => none

/-- The attempt has a success status and content that the parser parses and
the extraction stage accepts. -/
def extractAccepts : Outcome → Bool
  | .ok content _ =>
    truthy content && truthy (tryParseJson content) && typeofJs (tryParseJson content) == .object
  | _ => false

/-- The attempt has a success status and content that the parser parses and
`validateOutputStruct` accepts. -/
def compareAccepts : Outcome → Bool
  | .ok content _ => truthy content && validateOutputStruct (tryParseJson content)
  | _ => false

/-- The list is the entry list of a JavaScript object used as a field schema:
no name occurs twice, and no name is `__proto__` (an assignment to that name
sets the prototype instead of defining a property). -/
def Schema.wellFormed (schema : Schema) : Prop :=
  (schema.map Prod.fst).Nodup ∧ js "__proto__" ∉ schema.map Prod.fst

/-- Attempt numbers of the network calls in a trace, in the order they were
made. -/
def fetches : List Event → List Nat
  | [] => []
  | .fetch n :: rest => n :: fetches rest
  | .wait _ :: rest => fetches rest

/-- Number of positions of `text` at which `pat` occurs. -/
def countOccurrences (pat text : JsString) : Nat :=
  (text.tails.filter (fun t => pat.isPrefixOf t)).length

/-- The value is one of the four colours `red`, `yellow`, `grey`, `green`. -/
def isColour : JsVal → Bool
  | .str s => s == js "red" || s == js "yellow" || s == js "grey" || s == js "green"
  | _ => false

/-- The value is a scalar, a sequence or `null`. -/
def isEvidence : JsVal → Bool
  | .undefined => false
  | .obj _ => false
  | _ => true

/-- An entry of `fields`: an object with a `color` that is one of the four
colours, an `explanation` that is a string and an `evidence`. -/
def isFieldVerdict (v : JsVal) : Bool :=
  match v with
  | .obj _ =>
    isColour (getProp v (js "color")) &&
      typeofJs (getProp v (js "explanation")) == .string &&
      hasProp v (js "evidence") && isEvidence (getProp v (js "evidence"))
  | _ => false

/-- The Comparison Result invariant of the data model. -/
def isComparisonResult (v : JsVal) : Bool :=
  match v with
  | .obj _ =>
    isColour (getProp v (js "overall_eligibility")) &&
      typeofJs (getProp v (js "summary_explanation")) == .string &&
      (match getProp v (js "fields") with
        | .obj fields => fields.all (fun kv => isFieldVerdict kv.2)
        | _ => false)
  | _ => false

/-- The attempt throws inside the `try` block (network error or non-success
status) and is not the last attempt. -/
def delayedAfter (net : Network) (max_retries : Int) (i : Nat) : Bool :=
  (net i).isTransportFailure && decide ((i : Int) < max_retries)

/-- The trace in which the given attempts call the network in order and a
500 ms wait follows exactly the attempts that throw and are not the last. -/
def traceOfAttempts (net : Network) (max_retries : Int) : List Nat → List Event
  | [] => []
  | i :: rest =>
    .fetch i :: ((if delayedAfter net max_retries i then [.wait 500] else []) ++
      traceOfAttempts net max_retries rest)

/-! ## Lemmas: string primitives -/

theorem indexOfFrom_append_of_not_mem (c : Nat) (a b : JsString) (i : Nat) (h : c ∉ a) :
    indexOfFrom c (a ++ b) i = indexOfFrom c b (i + a.length) := by
  induction a generalizing i with
  | nil => simp
  | cons x xs ih =>
    have hx : x ≠ c := fun e => h (by simp [e])
    have hxs : c ∉ xs := fun e => h (by simp [e])
    have e : i + 1 + xs.length = i + (xs.length + 1) := by omega
    simp only [List.cons_append, indexOfFrom, if_neg hx, List.append_eq, ih (i + 1) hxs,
      List.length_cons, e]

theorem indexOfFrom_of_not_mem (c : Nat) (a : JsString) (i : Nat) (h : c ∉ a) :
    indexOfFrom c a i = -1 := by
  have := indexOfFrom_append_of_not_mem c a [] i h
  simpa [indexOfFrom] using this

theorem indexOfFrom_ge (c : Nat) (a : JsString) (i : Nat) :
    indexOfFrom c a i = -1 ∨ (i : Int) ≤ indexOfFrom c a i := by
  induction a generalizing i with
  | nil => simp [indexOfFrom]
  | cons x xs ih =>
    simp only [indexOfFrom]
    split
    · right; exact le_refl _
    · rcases ih (i + 1) with h | h
      · left; exact h
      · right; push_cast at h; omega

theorem lastIndexOfFrom_append (c : Nat) (a b : JsString) (i : Nat) (best : Int) :
    lastIndexOfFrom c (a ++ b) i best =
      lastIndexOfFrom c b (i + a.length) (lastIndexOfFrom c a i best) := by
  induction a generalizing i best with
  | nil => simp [lastIndexOfFrom]
  | cons x xs ih =>
    have e : i + 1 + xs.length = i + (xs.length + 1) := by omega
    simp only [List.cons_append, lastIndexOfFrom, List.append_eq, ih, List.length_cons, e]

theorem lastIndexOfFrom_of_not_mem (c : Nat) (a : JsString) (i : Nat) (best : Int)
    (h : c ∉ a) : lastIndexOfFrom c a i best = best := by
  induction a generalizing i best with
  | nil => simp [lastIndexOfFrom]
  | cons x xs ih =>
    have hx : x ≠ c := fun e => h (by simp [e])
    have hxs : c ∉ xs := fun e => h (by simp [e])
    simp only [lastIndexOfFrom, if_neg hx, ih (i + 1) best hxs]

theorem lastIndexOfFrom_lt (c : Nat) (a : JsString) (i : Nat) (best : Int)
    (h : best < i) : lastIndexOfFrom c a i best < (i : Int) + a.length := by
  induction a generalizing i best with
  | nil => simpa [lastIndexOfFrom] using h
  | cons x xs ih =>
    simp only [lastIndexOfFrom, List.length_cons]
    have := ih (i + 1) (if x = c then (i : Int) else best) (by split <;> push_cast <;> omega)
    push_cast at this ⊢
    omega

/-- The first index of `c` in `a ++ c :: b` when `c` does not occur in `a`. -/
theorem indexOf_first (c : Nat) (a b : JsString) (h : c ∉ a) :
    indexOf (a ++ c :: b) c = a.length := by
  simp [indexOf, indexOfFrom_append_of_not_mem c a (c :: b) 0 h, indexOfFrom]

/-- The last index of `c` in `a ++ c :: b` when `c` does not occur in `b`. -/
theorem lastIndexOf_last (c : Nat) (a b : JsString) (h : c ∉ b) :
    lastIndexOf (a ++ c :: b) c = a.length := by
  simp [lastIndexOf, lastIndexOfFrom_append, lastIndexOfFrom,
    lastIndexOfFrom_of_not_mem c b _ _ h]

theorem substring_span (a mid b : JsString) :
    substring (a ++ (mid ++ b)) (a.length : Int) ((a.length + mid.length : Nat) : Int) = mid := by
  have h1 : min a.length (a ++ (mid ++ b)).length = a.length := by simp
  have h2 : min (a.length + mid.length) (a ++ (mid ++ b)).length = a.length + mid.length := by
    simp
  have h3 : max a.length (a.length + mid.length) = a.length + mid.length := by simp
  have h4 : min a.length (a.length + mid.length) = a.length := by simp
  have h5 : a ++ (mid ++ b) = (a ++ mid) ++ b := by simp
  have h6 : (a ++ mid).length = a.length + mid.length := by simp
  unfold substring
  simp only [Int.toNat_ofNat, h1, h2, h3, h4]
  rw [h5, ← h6, List.take_left, List.drop_left]

/-! ## Lemmas: `JSON.parse` -/

namespace JSON

theorem ite_ne {α : Type} {p : Prop} [Decidable p] {a b x : α} (ha : a ≠ x) (hb : b ≠ x) :
    (if p then a else b) ≠ x := by
  split <;> assumption

theorem classify_lbrace (c : Nat) (h : classify c = .lbrace) : c = 0x7B := by
  by_contra hne
  have hq : classify c ≠ .lbrace := by
    unfold classify
    refine ite_ne (by intro hh; cases hh) (ite_ne (by intro hh; cases hh) ?_)
    rw [if_neg hne]
    repeat' (first | (intro hh; cases hh) | refine ite_ne ?_ ?_)
  exact hq h

theorem classify_rbrace (c : Nat) (h : classify c = .rbrace) : c = 0x7D := by
  by_contra hne
  have hq : classify c ≠ .rbrace := by
    unfold classify
    refine ite_ne (by intro hh; cases hh) (ite_ne (by intro hh; cases hh)
      (ite_ne (by intro hh; cases hh) ?_))
    rw [if_neg hne]
    repeat' (first | (intro hh; cases hh) | refine ite_ne ?_ ?_)
  exact hq h

theorem rootIsObj_cons_congr (f g : Frame) (rest : List Frame) (h : g.isObj = f.isObj) :
    rootIsObj (g :: rest) = rootIsObj (f :: rest) := by
  cases rest <;> simp [rootIsObj, h]

theorem deliver_cons (v : JsVal) (f : Frame) (rest : List Frame) (st : PState)
    (h : deliver v (f :: rest) = some st) :
    st.lex = .idle ∧ st.expect = .commaOrClose ∧
      ∃ g, st.stack = g :: rest ∧ g.isObj = f.isObj := by
  cases f <;> simp [deliver] at h <;> subst h <;> simp [Frame.isObj]

theorem deliver_root (v : JsVal) (stack : List Frame) (st : PState)
    (hopen : rootIsObj stack = true) (h : deliver v stack = some st) :
    rootIsObj st.stack = true := by
  cases stack with
  | nil => simp [rootIsObj] at hopen
  | cons f rest =>
    obtain ⟨_, _, g, hg, hk⟩ := deliver_cons v f rest st h
    rw [hg, rootIsObj_cons_congr f g rest hk]
    exact hopen

theorem close_open (props : List (JsString × JsVal)) (rest : List Frame) (st : PState)
    (hopen : rootIsObj (.obj props :: rest) = true)
    (h : deliver (.obj props) rest = some st) :
    rootIsObj st.stack = true ∨ ObjDone st := by
  cases rest with
  | nil =>
    right
    simp [deliver] at h
    subst h
    exact ⟨rfl, rfl, props, rfl⟩
  | cons g rest => left; exact deliver_root _ _ _ (by exact hopen) h

theorem close_arr_open (items : List JsVal) (rest : List Frame) (st : PState)
    (hopen : rootIsObj (.arr items :: rest) = true)
    (h : deliver (.arr items) rest = some st) :
    rootIsObj st.stack = true := by
  cases rest with
  | nil => simp [rootIsObj, Frame.isObj] at hopen
  | cons g rest => exact deliver_root _ _ _ (by exact hopen) h

theorem stepIdle_open (expect : Expect) (stack : List Frame) (c : Nat) (st : PState)
    (hopen : rootIsObj stack = true) (h : stepIdle expect stack c = some st) :
    rootIsObj st.stack = true ∨ (c = 0x7D ∧ ObjDone st) := by
  have hne : ∀ f, rootIsObj (f :: stack) = true := by
    intro f
    cases stack with
    | nil => simp [rootIsObj] at hopen
    | cons g rest => exact hopen
  unfold stepIdle at h
  split at h
  case h_5 hc =>
    have hc := classify_rbrace c hc
    split at h
    · rcases close_open _ _ _ hopen h with h1 | h1
      · exact Or.inl h1
      · exact Or.inr ⟨hc, h1⟩
    · rcases close_open _ _ _ hopen h with h1 | h1
      · exact Or.inl h1
      · exact Or.inr ⟨hc, h1⟩
    · simp at h
  case h_6 =>
    left
    split at h
    · exact close_arr_open _ _ _ hopen h
    · exact close_arr_open _ _ _ hopen h
    · simp at h
  case h_7 =>
    left
    split at h <;> simp at h <;> subst h <;> exact hopen
  case h_8 =>
    left
    split at h <;> simp at h
    subst h; exact hopen
  all_goals
    left
    first
      | (simp at h; done)
      | (simp at h; subst h; exact hopen)
      | (split at h <;> simp at h; subst h; first | exact hopen | exact hne _)

theorem endString_open (acc : JsString) (expect : Expect) (stack : List Frame) (st : PState)
    (hopen : rootIsObj stack = true) (h : endString acc expect stack = some st) :
    rootIsObj st.stack = true := by
  unfold endString at h
  split at h
  · split at h
    · simp at h
      subst h
      rename_i props rest
      show rootIsObj (.objKey props acc :: rest) = true
      rw [rootIsObj_cons_congr (.obj props) (.objKey props acc) rest rfl]
      exact hopen
    · simp at h
  · exact deliver_root _ _ _ hopen h

theorem step_open (st : PState) (c : Nat) (st1 : PState)
    (hopen : rootIsObj st.stack = true) (h : step st c = some st1) :
    rootIsObj st1.stack = true ∨ (c = 0x7D ∧ ObjDone st1) := by
  obtain ⟨lex, expect, stack⟩ := st
  cases lex with
  | idle => exact stepIdle_open expect stack c st1 hopen h
  | str acc =>
    left
    simp only [step] at h
    split at h
    · exact endString_open _ _ _ _ hopen h
    · split at h
      · simp at h; subst h; exact hopen
      · split at h
        · simp at h
        · simp at h; subst h; exact hopen
  | esc acc =>
    left
    simp only [step, Option.map_eq_some'] at h
    obtain ⟨l, _, hl⟩ := h
    subst hl; exact hopen
  | uni acc code left =>
    left
    simp only [step] at h
    split at h
    · split at h <;> simp at h <;> subst h <;> exact hopen
    · simp at h
  | num ph a =>
    simp only [step] at h
    split at h
    · left
      simp only [Option.map_eq_some'] at h
      obtain ⟨l, _, hl⟩ := h
      subst hl; exact hopen
    · split at h
      · split at h
        · rename_i st2 hd
          exact stepIdle_open _ _ c st1 (deliver_root _ _ _ hopen hd) h
        · simp at h
      · simp at h
  | lit rest v =>
    left
    simp only [step] at h
    split at h
    · simp at h
    · split at h
      · split at h
        · exact deliver_root _ _ _ hopen h
        · simp at h; subst h; exact hopen
      · simp at h

theorem step_done (st : PState) (c : Nat) (st1 : PState)
    (hdone : ObjDone st) (h : step st c = some st1) : st1 = st := by
  obtain ⟨lex, expect, stack⟩ := st
  obtain ⟨h1, h2, props, h3⟩ := hdone
  simp only at h1 h2 h3
  subst h1 h2 h3
  simp only [step, stepIdle] at h
  split at h <;> simp [Expect.wantsValue, Expect.wantsKey] at h
  exact h.symm

theorem finish_open (st : PState) (hopen : rootIsObj st.stack = true) : finish st = none := by
  obtain ⟨lex, expect, stack⟩ := st
  cases stack with
  | nil => simp [rootIsObj] at hopen
  | cons f rest =>
    unfold finish
    split <;> simp_all

theorem run_append (st : PState) (a b : JsString) :
    run st (a ++ b) = (run st a).bind (fun s => run s b) := by
  induction a generalizing st with
  | nil => simp [run]
  | cons x xs ih =>
    simp only [List.cons_append, run]
    cases step st x with
    | none => simp
    | some s => simp [ih]

theorem run_open (st : PState) (cs : JsString) (st1 : PState)
    (hopen : rootIsObj st.stack = true) (hcs : 0x7D ∉ cs) (h : run st cs = some st1) :
    rootIsObj st1.stack = true := by
  induction cs generalizing st with
  | nil => simp [run] at h; subst h; exact hopen
  | cons x xs ih =>
    simp only [run] at h
    cases hs : step st x with
    | none => simp [hs] at h
    | some s =>
      simp only [hs] at h
      rcases step_open st x s hopen hs with h1 | ⟨h1, _⟩
      · exact ih s h1 (fun e => hcs (by simp [e])) h
      · exact absurd (by simp [h1]) hcs

theorem run_done (st : PState) (cs : JsString) (st1 : PState)
    (hdone : ObjDone st) (h : run st cs = some st1) : st1 = st := by
  induction cs generalizing st1 with
  | nil => simp [run] at h; exact h.symm
  | cons x xs ih =>
    simp only [run] at h
    cases hs : step st x with
    | none => simp [hs] at h
    | some s =>
      simp only [hs] at h
      have := step_done st x s hdone hs
      subst this
      exact ih st1 h

theorem run_open_or_done (st : PState) (cs : JsString) (st1 : PState)
    (hst : rootIsObj st.stack = true ∨ ObjDone st) (h : run st cs = some st1) :
    rootIsObj st1.stack = true ∨ ObjDone st1 := by
  induction cs generalizing st with
  | nil => simp [run] at h; subst h; exact hst
  | cons x xs ih =>
    simp only [run] at h
    cases hs : step st x with
    | none => simp [hs] at h
    | some s =>
      simp only [hs] at h
      rcases hst with hopen | hdone
      · rcases step_open st x s hopen hs with h1 | ⟨_, h1⟩
        · exact ih s (Or.inl h1) h
        · exact ih s (Or.inr h1) h
      · have := step_done st x s hdone hs
        subst this
        exact ih s (Or.inr hdone) h

theorem nonObj_of_stack (st : PState) (g : Frame) (rest : List Frame)
    (hs : st.stack = g :: rest) (h : rootIsObj (g :: rest) = false) : nonObj st := by
  obtain ⟨lex, expect, stack⟩ := st
  simp only at hs
  subst hs
  exact h

theorem deliver_closed (v : JsVal) (f : Frame) (rest : List Frame) (st : PState)
    (hcl : rootIsObj (f :: rest) = false) (h : deliver v (f :: rest) = some st) :
    nonObj st := by
  obtain ⟨_, _, g, hg, hk⟩ := deliver_cons v f rest st h
  refine nonObj_of_stack st g rest hg ?_
  rw [rootIsObj_cons_congr f g rest hk]
  exact hcl

theorem stepIdle_closed (expect : Expect) (f : Frame) (rest : List Frame) (c : Nat)
    (st : PState) (hcl : rootIsObj (f :: rest) = false)
    (h : stepIdle expect (f :: rest) c = some st) : nonObj st := by
  unfold stepIdle at h
  split at h
  case h_5 =>
    split at h
    · rename_i props rest1 heq
      cases heq
      cases rest with
      | nil => simp [rootIsObj, Frame.isObj] at hcl
      | cons g rest2 => exact deliver_closed _ _ _ _ (by exact hcl) h
    · rename_i props rest1 heq
      cases heq
      cases rest with
      | nil => simp [rootIsObj, Frame.isObj] at hcl
      | cons g rest2 => exact deliver_closed _ _ _ _ (by exact hcl) h
    · simp at h
  case h_6 =>
    split at h
    · rename_i items rest1 heq
      cases heq
      cases rest with
      | nil => simp [deliver] at h; subst h; simp [nonObj, notObj]
      | cons g rest2 => exact deliver_closed _ _ _ _ (by exact hcl) h
    · rename_i items rest1 heq
      cases heq
      cases rest with
      | nil => simp [deliver] at h; subst h; simp [nonObj, notObj]
      | cons g rest2 => exact deliver_closed _ _ _ _ (by exact hcl) h
    · simp at h
  case h_7 =>
    split at h <;> simp at h
    · rename_i heq; cases heq; subst h; exact hcl
    · rename_i heq; cases heq; subst h; exact hcl
  case h_8 =>
    split at h <;> simp at h
    subst h; exact hcl
  all_goals
    first
      | (simp at h; done)
      | (simp at h; subst h; exact hcl)
      | (split at h <;> simp at h; subst h; exact hcl)

theorem stepEsc_kind (acc : JsString) (c : Nat) (l : Lex) (h : stepEsc acc c = some l) :
    (∃ s, l = .str s) ∨ ∃ s code left, l = .uni s code left := by
  unfold stepEsc at h
  repeat' split at h
  all_goals first
    | (simp at h; done)
    | (simp at h; subst h; exact Or.inl ⟨_, rfl⟩)
    | (simp at h; subst h; exact Or.inr ⟨_, _, _, rfl⟩)

theorem stepNum_kind (ph : NumPhase) (a : NumAcc) (c : Nat) (l : Lex)
    (h : stepNum ph a c = some l) : ∃ ph1 a1, l = .num ph1 a1 := by
  unfold stepNum at h
  repeat' split at h
  all_goals first
    | (simp at h; done)
    | (simp at h; subst h; exact ⟨_, _, rfl⟩)

theorem endString_closed (acc : JsString) (expect : Expect) (f : Frame) (rest : List Frame)
    (st : PState) (hcl : rootIsObj (f :: rest) = false)
    (h : endString acc expect (f :: rest) = some st) : nonObj st := by
  unfold endString at h
  split at h
  · split at h
    · rename_i props rest1 heq
      cases heq
      simp at h
      subst h
      show rootIsObj (.objKey props acc :: rest) = false
      rw [rootIsObj_cons_congr (.obj props) (.objKey props acc) rest rfl]
      exact hcl
    · simp at h
  · exact deliver_closed _ _ _ _ hcl h

theorem step_closed (lex : Lex) (expect : Expect) (f : Frame) (rest : List Frame) (c : Nat)
    (st1 : PState) (hcl : rootIsObj (f :: rest) = false)
    (h : step ⟨lex, expect, f :: rest⟩ c = some st1) : nonObj st1 := by
  cases lex with
  | idle => exact stepIdle_closed expect f rest c st1 hcl h
  | str acc =>
    simp only [step] at h
    split at h
    · exact endString_closed _ _ _ _ _ hcl h
    · split at h
      · simp at h; subst h; exact hcl
      · split at h
        · simp at h
        · simp at h; subst h; exact hcl
  | esc acc =>
    simp only [step, Option.map_eq_some'] at h
    obtain ⟨l, _, hl⟩ := h
    subst hl; exact hcl
  | uni acc code left =>
    simp only [step] at h
    split at h
    · split at h <;> simp at h <;> subst h <;> exact hcl
    · simp at h
  | num ph a =>
    simp only [step] at h
    split at h
    · simp only [Option.map_eq_some'] at h
      obtain ⟨l, _, hl⟩ := h
      subst hl; exact hcl
    · split at h
      · split at h
        · rename_i st2 hd
          obtain ⟨_, _, g, hg, hk⟩ := deliver_cons _ f rest st2 hd
          rw [hg] at h
          refine stepIdle_closed _ g rest c st1 ?_ h
          rw [rootIsObj_cons_congr f g rest hk]
          exact hcl
        · simp at h
      · simp at h
  | lit rest1 v =>
    simp only [step] at h
    split at h
    · simp at h
    · split at h
      · split at h
        · exact deliver_closed _ _ _ _ hcl h
        · simp at h; subst h; exact hcl
      · simp at h

theorem stepIdle_done (v : JsVal) (c : Nat) (st : PState)
    (h : stepIdle (.done v) [] c = some st) : st = ⟨.idle, .done v, []⟩ := by
  simp only [stepIdle] at h
  split at h <;> simp [Expect.wantsValue, Expect.wantsKey] at h
  exact h.symm

theorem step_top (lex : Lex) (expect : Expect) (c : Nat) (st1 : PState)
    (hn : nonObj ⟨lex, expect, []⟩) (h : step ⟨lex, expect, []⟩ c = some st1) :
    nonObj st1 := by
  cases lex with
  | idle =>
    cases expect with
    | done v =>
      have := stepIdle_done v c st1 h
      subst this
      exact hn
    | _ => simp [nonObj] at hn
  | str acc =>
    simp only [step] at h
    split at h
    · unfold endString at h
      split at h
      · simp at h
      · simp [deliver] at h; subst h; simp [nonObj, notObj]
    · split at h
      · simp at h; subst h; simp [nonObj]
      · split at h
        · simp at h
        · simp at h; subst h; simp [nonObj]
  | esc acc =>
    simp only [step, Option.map_eq_some'] at h
    obtain ⟨l, hl1, hl⟩ := h
    subst hl
    rcases stepEsc_kind acc c l hl1 with ⟨s, e⟩ | ⟨s, code, left, e⟩ <;> subst e <;> simp [nonObj]
  | uni acc code left =>
    simp only [step] at h
    split at h
    · split at h <;> simp at h <;> subst h <;> simp [nonObj]
    · simp at h
  | num ph a =>
    simp only [step] at h
    split at h
    · simp only [Option.map_eq_some'] at h
      obtain ⟨l, hl1, hl⟩ := h
      subst hl
      obtain ⟨ph1, a1, e⟩ := stepNum_kind ph a c l hl1
      subst e
      simp [nonObj]
    · split at h
      · simp only [deliver] at h
        have := stepIdle_done _ c st1 h
        subst this
        simp [nonObj, notObj, NumAcc.value]
      · simp at h
  | lit rest1 v =>
    have hv : notObj v = true := by simpa [nonObj] using hn
    simp only [step] at h
    split at h
    · simp at h
    · split at h
      · split at h
        · simp [deliver] at h; subst h; simpa [nonObj] using hv
        · simp at h; subst h; simpa [nonObj] using hv
      · simp at h

theorem step_nonObj (st : PState) (c : Nat) (st1 : PState)
    (hn : nonObj st) (h : step st c = some st1) : nonObj st1 := by
  obtain ⟨lex, expect, stack⟩ := st
  cases stack with
  | nil => exact step_top lex expect c st1 hn h
  | cons f rest => exact step_closed lex expect f rest c st1 hn h

theorem run_nonObj (st : PState) (cs : JsString) (st1 : PState)
    (hn : nonObj st) (h : run st cs = some st1) : nonObj st1 := by
  induction cs generalizing st with
  | nil => simp [run] at h; subst h; exact hn
  | cons x xs ih =>
    simp only [run] at h
    cases hs : step st x with
    | none => simp [hs] at h
    | some s =>
      simp only [hs] at h
      exact ih s (step_nonObj st x s hn hs) h

theorem finish_nonObj (st : PState) (props : List (JsString × JsVal)) (hn : nonObj st) :
    finish st ≠ some (.obj props) := by
  obtain ⟨lex, expect, stack⟩ := st
  intro h
  unfold finish at h
  split at h
  · simp_all [nonObj, notObj]
  · split at h
    · simp [NumAcc.value] at h
    · simp at h
  · simp at h

theorem step_init (c : Nat) (st1 : PState) (hc : c ≠ 0x7B) (h : step init c = some st1) :
    st1 = init ∨ nonObj st1 := by
  simp only [step, init, stepIdle] at h
  split at h
  case h_3 hcl => exact absurd (classify_lbrace c hcl) hc
  all_goals first
    | (simp [Expect.wantsValue, Expect.wantsKey] at h; done)
    | (simp [Expect.wantsValue, Expect.wantsKey] at h; subst h; left; rfl)
    | (simp [Expect.wantsValue, Expect.wantsKey] at h; subst h; right; simp [nonObj, notObj, rootIsObj, Frame.isObj])

theorem run_before_brace (a : JsString) (s st : PState) (ha : 0x7B ∉ a)
    (hs : s = init ∨ nonObj s) (hr : run s a = some st) : st = init ∨ nonObj st := by
  induction a generalizing s with
  | nil =>
    simp [run] at hr
    subst hr
    exact hs
  | cons x xs ih =>
    simp only [run] at hr
    cases hstep : step s x with
    | none => simp [hstep] at hr
    | some s1 =>
      simp only [hstep] at hr
      have hx : x ≠ 0x7B := fun e => ha (by simp [e])
      have hxs : 0x7B ∉ xs := fun e => ha (by simp [e])
      refine ih s1 hxs ?_ hr
      rcases hs with hs | hs
      · subst hs
        exact step_init x s1 hx hstep
      · exact Or.inr (step_nonObj s x s1 hs hstep)

theorem run_init_before_brace (a : JsString) (st : PState) (ha : 0x7B ∉ a)
    (h : run init a = some st) : st = init ∨ nonObj st :=
  run_before_brace a init st ha (Or.inl rfl) h

theorem mem_split_first (c : Nat) (l : JsString) (h : c ∈ l) :
    ∃ a b, l = a ++ c :: b ∧ c ∉ a := by
  induction l with
  | nil => simp at h
  | cons x xs ih =>
    by_cases hx : x = c
    · exact ⟨[], xs, by simp [hx], by simp⟩
    · have : c ∈ xs := by
        rcases List.mem_cons.mp h with e | e
        · exact absurd e.symm hx
        · exact e
      obtain ⟨a, b, e, ha⟩ := ih this
      refine ⟨x :: a, b, by simp [e], ?_⟩
      intro hm
      rcases List.mem_cons.mp hm with e1 | e1
      · exact hx e1.symm
      · exact ha e1

theorem mem_split_last (c : Nat) (l : JsString) (h : c ∈ l) :
    ∃ a b, l = a ++ c :: b ∧ c ∉ b := by
  induction l with
  | nil => simp at h
  | cons x xs ih =>
    by_cases hxs : c ∈ xs
    · obtain ⟨a, b, e, hb⟩ := ih hxs
      exact ⟨x :: a, b, by simp [e], hb⟩
    · have hx : c = x := by
        rcases List.mem_cons.mp h with e | e
        · exact e
        · exact absurd e hxs
      exact ⟨[], xs, by simp [hx], hxs⟩

/-- A text that parses to an object consists of a part without `{`, the span
from its first `{` to its last `}`, and a part without `}`; the span alone
parses to the same object. -/
theorem parse_obj_span (J : JsString) (props : List (JsString × JsVal))
    (h : parse J = some (.obj props)) :
    ∃ a mid t, J = a ++ (0x7B :: (mid ++ [0x7D])) ++ t ∧ 0x7B ∉ a ∧ 0x7D ∉ t ∧
      parse (0x7B :: (mid ++ [0x7D])) = some (.obj props) := by
  unfold parse at h
  cases hr : run init J with
  | none => simp [hr] at h
  | some stF =>
    simp only [hr] at h
    by_cases hJ : 0x7B ∈ J
    · obtain ⟨a, rest, eJ, ha⟩ := mem_split_first _ J hJ
      subst eJ
      rw [run_append] at hr
      cases hra : run init a with
      | none => simp [hra] at hr
      | some sa =>
        simp only [hra, Option.some_bind] at hr
        have hsa : sa = init := by
          rcases run_init_before_brace a sa ha hra with e | e
          · exact e
          · exact absurd h (finish_nonObj stF props (run_nonObj sa _ stF e hr))
        subst hsa
        simp only [run] at hr
        have hstep : step init 0x7B = some ⟨.idle, .keyOrClose, [.obj []]⟩ := rfl
        simp only [hstep] at hr
        have hopen1 : rootIsObj (PState.mk .idle .keyOrClose [.obj []]).stack = true := rfl
        by_cases hrest : 0x7D ∈ rest
        · obtain ⟨mid, t, eR, ht⟩ := mem_split_last _ rest hrest
          subst eR
          have e1 : mid ++ 0x7D :: t = (mid ++ [0x7D]) ++ t := by simp
          rw [e1, run_append] at hr
          cases hrm : run ⟨.idle, .keyOrClose, [.obj []]⟩ (mid ++ [0x7D]) with
          | none => simp [hrm] at hr
          | some s2 =>
            simp only [hrm, Option.some_bind] at hr
            have hdone : ObjDone s2 := by
              rcases run_open_or_done _ _ s2 (Or.inl hopen1) hrm with e | e
              · have := finish_open stF (run_open s2 t stF e ht hr)
                rw [this] at h
                exact absurd h (by simp)
              · exact e
            have hs2 : stF = s2 := run_done s2 t stF hdone hr
            subst hs2
            refine ⟨a, mid, t, by simp, ha, ht, ?_⟩
            unfold parse
            have : run init (0x7B :: (mid ++ [0x7D])) = some stF := by
              simp only [run, hstep]
              exact hrm
            simp only [this]
            exact h
        · have := finish_open stF (run_open _ rest stF hopen1 hrest hr)
          rw [this] at h
          exact absurd h (by simp)
    · rcases run_init_before_brace J stF hJ hr with e | e
      · subst e
        simp [finish, init] at h
      · exact absurd h (finish_nonObj stF props e)

end JSON

/-! ## Lemmas: the retry loops -/

theorem fetchCount_append (a b : List Event) :
    fetchCount (a ++ b) = fetchCount a + fetchCount b := by
  induction a with
  | nil => simp [fetchCount]
  | cons x xs ih =>
    cases x <;> simp [fetchCount, ih]
    omega

theorem waitCount_append (a b : List Event) :
    waitCount (a ++ b) = waitCount a + waitCount b := by
  induction a with
  | nil => simp [waitCount]
  | cons x xs ih =>
    cases x <;> simp [waitCount, ih]
    omega

theorem getLast?_append_of_getLast? (a b : List Event) (e : Event)
    (h : b.getLast? = some e) : (a ++ b).getLast? = some e := by
  cases b with
  | nil => simp at h
  | cons x xs => simp [List.getLast?_append, h]

theorem extractTry_of_not_accepts (o : Outcome) (h : extractAccepts o = false) :
    extractTry o = .fellThrough ∨ ∃ e, extractTry o = .thrown e := by
  cases o with
  | threw e => exact Or.inr ⟨e, rfl⟩
  | notOk status errorBody => exact Or.inr ⟨_, rfl⟩
  | ok content usage =>
    left
    simp only [extractAccepts, Bool.and_eq_false_iff] at h
    simp only [extractTry]
    rcases h with (h | h) | h
    · simp [h]
    · simp [h]
    · simp [h]

theorem extractTry_of_accepts (content usage : JsVal) (h1 : truthy content = true)
    (h2 : truthy (tryParseJson content) = true)
    (h3 : typeofJs (tryParseJson content) = .object) :
    extractTry (.ok content usage) = .returned (reply (tryParseJson content) usage) := by
  simp [extractTry, h1, h2, h3]

theorem compareTry_of_not_accepts (o : Outcome) (h : compareAccepts o = false) :
    compareTry o = .fellThrough ∨ ∃ e, compareTry o = .thrown e := by
  cases o with
  | threw e => exact Or.inr ⟨e, rfl⟩
  | notOk status errorBody => exact Or.inr ⟨_, rfl⟩
  | ok content usage =>
    left
    simp only [compareAccepts, Bool.and_eq_false_iff] at h
    simp only [compareTry]
    rcases h with h | h
    · simp [h]
    · simp [h]

theorem compareTry_of_accepts (content usage : JsVal) (h1 : truthy content = true)
    (h2 : validateOutputStruct (tryParseJson content) = true) :
    compareTry (.ok content usage) = .returned (reply (tryParseJson content) usage) := by
  simp [compareTry, h1, h2]

/-- The extraction loop returns at the first accepted attempt. -/
theorem extractLoop_accept (schema : Schema) (net : Network) (max_retries : Int) (k : Nat)
    (v : JsVal) (hk : (k : Int) ≤ max_retries) (hret : extractTry (net k) = .returned v)
    (fuel attempt : Nat) (hle : attempt ≤ k) (hfuel : k - attempt < fuel)
    (hfail : ∀ i, attempt ≤ i → i < k → extractAccepts (net i) = false) :
    ∃ trace, extractLoop schema net max_retries fuel attempt = some ⟨.resolved v, trace⟩ ∧
      fetchCount trace = k - attempt + 1 ∧ trace.getLast? = some (.fetch k) := by
  induction fuel generalizing attempt with
  | zero => omega
  | succ fuel ih =>
    have hcond : (attempt : Int) ≤ max_retries := by omega
    simp only [extractLoop, if_pos hcond]
    by_cases hak : attempt = k
    · subst hak
      simp only [hret]
      exact ⟨[.fetch attempt], rfl, by simp [fetchCount], rfl⟩
    · have hlt : attempt < k := by omega
      have hne : ¬ ((attempt : Int) = max_retries) := by omega
      obtain ⟨trace, htr, hcount, hlast⟩ :=
        ih (attempt + 1) (by omega) (by omega) (fun i h1 h2 => hfail i (by omega) h2)
      rcases extractTry_of_not_accepts _ (hfail attempt (le_refl _) hlt) with h | ⟨e, h⟩
      · simp only [h, htr, Run.after]
        refine ⟨_, rfl, ?_, getLast?_append_of_getLast? _ _ _ hlast⟩
        rw [fetchCount_append, hcount]
        simp [fetchCount]
        omega
      · simp only [h, if_neg hne, htr, Run.after]
        refine ⟨_, rfl, ?_, getLast?_append_of_getLast? _ _ _ hlast⟩
        rw [fetchCount_append, hcount]
        simp [fetchCount]
        omega

/-- The comparison loop returns at the first accepted attempt. -/
theorem compareLoop_accept (net : Network) (max_retries : Int) (k : Nat)
    (v : JsVal) (hk : (k : Int) ≤ max_retries) (hret : compareTry (net k) = .returned v)
    (fuel attempt : Nat) (hle : attempt ≤ k) (hfuel : k - attempt < fuel)
    (hfail : ∀ i, attempt ≤ i → i < k → compareAccepts (net i) = false) :
    ∃ trace, compareLoop net max_retries fuel attempt = some ⟨.resolved v, trace⟩ ∧
      fetchCount trace = k - attempt + 1 ∧ trace.getLast? = some (.fetch k) := by
  induction fuel generalizing attempt with
  | zero => omega
  | succ fuel ih =>
    have hcond : (attempt : Int) ≤ max_retries := by omega
    simp only [compareLoop, if_pos hcond]
    by_cases hak : attempt = k
    · subst hak
      simp only [hret]
      exact ⟨[.fetch attempt], rfl, by simp [fetchCount], rfl⟩
    · have hlt : attempt < k := by omega
      have hne : ¬ ((attempt : Int) = max_retries) := by omega
      obtain ⟨trace, htr, hcount, hlast⟩ :=
        ih (attempt + 1) (by omega) (by omega) (fun i h1 h2 => hfail i (by omega) h2)
      rcases compareTry_of_not_accepts _ (hfail attempt (le_refl _) hlt) with h | ⟨e, h⟩
      · simp only [h, htr, Run.after]
        refine ⟨_, rfl, ?_, getLast?_append_of_getLast? _ _ _ hlast⟩
        rw [fetchCount_append, hcount]
        simp [fetchCount]
        omega
      · simp only [h, if_neg hne, htr, Run.after]
        refine ⟨_, rfl, ?_, getLast?_append_of_getLast? _ _ _ hlast⟩
        rw [fetchCount_append, hcount]
        simp [fetchCount]
        omega

theorem compareTry_of_transport (o : Outcome) (h : o.isTransportFailure = true) :
    ∃ e, compareTry o = .thrown e := by
  cases o with
  | threw e => exact ⟨e, rfl⟩
  | notOk status errorBody => exact ⟨_, rfl⟩
  | ok content usage => simp [Outcome.isTransportFailure] at h

/-- When every remaining attempt is a transport failure, the comparison loop
ends in the `catch` block of the last attempt. -/
theorem compareLoop_transport (net : Network) (max_retries : Int)
    (fuel attempt : Nat) (hle : (attempt : Int) ≤ max_retries)
    (hfuel : (max_retries - attempt).toNat < fuel)
    (hfail : ∀ i : Nat, attempt ≤ i → (i : Int) ≤ max_retries →
      (net i).isTransportFailure = true) :
    ∃ trace, compareLoop net max_retries fuel attempt =
        some ⟨.resolved (reply compareFallback zeroUsage), trace⟩ ∧
      fetchCount trace = (max_retries - attempt).toNat + 1 := by
  induction fuel generalizing attempt with
  | zero => omega
  | succ fuel ih =>
    simp only [compareLoop, if_pos hle]
    obtain ⟨e, he⟩ := compareTry_of_transport _ (hfail attempt (le_refl _) hle)
    simp only [he]
    by_cases hlast : (attempt : Int) = max_retries
    · simp only [if_pos hlast]
      refine ⟨_, rfl, ?_⟩
      simp [fetchCount, hlast]
    · simp only [if_neg hlast]
      obtain ⟨trace, htr, hcount⟩ :=
        ih (attempt + 1) (by push_cast; omega) (by push_cast; omega)
          (fun i h1 h2 => hfail i (by omega) h2)
      simp only [htr, Run.after]
      refine ⟨_, rfl, ?_⟩
      rw [fetchCount_append, hcount]
      simp [fetchCount]
      omega

theorem extractTry_of_unusable (content usage : JsVal)
    (h : truthy content = false ∨ tryParseJson content = .null) :
    extractTry (.ok content usage) = .fellThrough := by
  rcases h with h | h
  · simp [extractTry, h]
  · simp [extractTry, h, truthy]

/-- When every remaining attempt completes without usable content, the
extraction loop runs out of attempts and the fallback after the loop is
returned. -/
theorem extractLoop_unusable (schema : Schema) (net : Network) (max_retries : Int)
    (fuel attempt : Nat) (hfuel : (max_retries + 1 - attempt).toNat < fuel)
    (hfail : ∀ i : Nat, attempt ≤ i → (i : Int) ≤ max_retries →
      extractTry (net i) = .fellThrough) :
    ∃ trace, extractLoop schema net max_retries fuel attempt =
        some ⟨.resolved (reply (emptyFromSchema schema) zeroUsage), trace⟩ ∧
      fetchCount trace = (max_retries + 1 - attempt).toNat ∧ waitCount trace = 0 := by
  induction fuel generalizing attempt with
  | zero => omega
  | succ fuel ih =>
    by_cases hle : (attempt : Int) ≤ max_retries
    · simp only [extractLoop, if_pos hle, hfail attempt (le_refl _) hle]
      obtain ⟨trace, htr, hcount, hwait⟩ :=
        ih (attempt + 1) (by push_cast; omega) (fun i h1 h2 => hfail i (by omega) h2)
      simp only [htr, Run.after]
      refine ⟨_, rfl, ?_, ?_⟩
      · rw [fetchCount_append, hcount]
        simp [fetchCount]
        omega
      · rw [waitCount_append, hwait]
        simp [waitCount]
    · simp only [extractLoop, if_neg hle]
      refine ⟨[], rfl, ?_, rfl⟩
      simp [fetchCount]
      omega

/-- The extraction loop ends within `max_retries + 1 - attempt` iterations. -/
theorem extractLoop_total (schema : Schema) (net : Network) (max_retries : Int)
    (fuel attempt : Nat) (hfuel : (max_retries + 1 - attempt).toNat < fuel) :
    ∃ r, extractLoop schema net max_retries fuel attempt = some r := by
  induction fuel generalizing attempt with
  | zero => omega
  | succ fuel ih =>
    by_cases hle : (attempt : Int) ≤ max_retries
    · obtain ⟨r, hr⟩ := ih (attempt + 1) (by push_cast; omega)
      simp only [extractLoop, if_pos hle, hr, Run.after]
      cases extractTry (net attempt) with
      | returned v => exact ⟨_, rfl⟩
      | fellThrough => exact ⟨_, rfl⟩
      | thrown e =>
        by_cases hlast : (attempt : Int) = max_retries
        · simp only [if_pos hlast]; exact ⟨_, rfl⟩
        · simp only [if_neg hlast]; exact ⟨_, rfl⟩
    · simp only [extractLoop, if_neg hle]
      exact ⟨_, rfl⟩

/-- The comparison loop ends within `max_retries + 1 - attempt` iterations. -/
theorem compareLoop_total (net : Network) (max_retries : Int)
    (fuel attempt : Nat) (hfuel : (max_retries + 1 - attempt).toNat < fuel) :
    ∃ r, compareLoop net max_retries fuel attempt = some r := by
  induction fuel generalizing attempt with
  | zero => omega
  | succ fuel ih =>
    by_cases hle : (attempt : Int) ≤ max_retries
    · obtain ⟨r, hr⟩ := ih (attempt + 1) (by push_cast; omega)
      simp only [compareLoop, if_pos hle, hr, Run.after]
      cases compareTry (net attempt) with
      | returned v => exact ⟨_, rfl⟩
      | fellThrough => exact ⟨_, rfl⟩
      | thrown e =>
        by_cases hlast : (attempt : Int) = max_retries
        · simp only [if_pos hlast]; exact ⟨_, rfl⟩
        · simp only [if_neg hlast]; exact ⟨_, rfl⟩
    · simp only [compareLoop, if_neg hle]
      exact ⟨_, rfl⟩

/-- Every call of `extractWithLlm` settles: the iteration bound of the
embedding is never reached. -/
theorem extractWithLlm_total (USE_SAMPLE_DATA : Bool) (schema : Schema) (net : Network)
    (jd_text : JsString) (max_retries : Option Int) :
    ∃ r, extractWithLlm USE_SAMPLE_DATA schema net jd_text max_retries = some r := by
  cases USE_SAMPLE_DATA with
  | true => exact ⟨_, rfl⟩
  | false =>
    obtain ⟨r, hr⟩ := extractLoop_total schema net (max_retries.getD 2)
      ((max_retries.getD 2).toNat + 1) 1 (by push_cast; omega)
    exact ⟨r, by simpa [extractWithLlm] using hr⟩

/-- Every call of `compareJd` settles: the iteration bound of the embedding is
never reached. -/
theorem compareJd_total (USE_SAMPLE_DATA : Bool) (net : Network) (extracted_json : JsVal)
    (profile_json : Option JsVal) (max_retries : Option Int) :
    ∃ r, compareJd USE_SAMPLE_DATA net extracted_json profile_json max_retries = some r := by
  cases USE_SAMPLE_DATA with
  | true => exact ⟨_, rfl⟩
  | false =>
    obtain ⟨r, hr⟩ := compareLoop_total net (max_retries.getD 1)
      ((max_retries.getD 1).toNat + 1) 1 (by push_cast; omega)
    exact ⟨r, by simpa [compareJd] using hr⟩

theorem setProp_of_not_mem (props : List (JsString × JsVal)) (k : JsString) (v : JsVal)
    (h : k ∉ props.map Prod.fst) : setProp props k v = props ++ [(k, v)] := by
  induction props with
  | nil => rfl
  | cons p rest ih =>
    obtain ⟨k1, v1⟩ := p
    have h1 : k1 ≠ k := fun e => h (by simp [e])
    have h2 : k ∉ rest.map Prod.fst := fun e => h (by simp [e])
    simp [setProp, h1, ih h2]

/-- The loop `o[k] = f(v)` over distinct names: every entry but the one named
`__proto__` becomes a property, in order. -/
theorem foldl_assignProp (schema : Schema) (f : JsString → JsVal)
    (acc : List (JsString × JsVal))
    (hnd : (schema.map Prod.fst).Nodup)
    (hdis : ∀ k ∈ schema.map Prod.fst, k ∉ acc.map Prod.fst) :
    schema.foldl (fun empty kv => assignProp empty kv.1 (f kv.2)) acc =
      acc ++ (schema.filter (fun kv => decide (kv.1 ≠ js "__proto__"))).map
        (fun kv => (kv.1, f kv.2)) := by
  induction schema generalizing acc with
  | nil => simp
  | cons kv rest ih =>
    simp only [List.map_cons, List.nodup_cons] at hnd
    simp only [List.foldl_cons]
    by_cases hp : kv.1 = js "__proto__"
    · have e : assignProp acc kv.1 (f kv.2) = acc := by
        unfold assignProp
        rw [if_pos hp]
      rw [List.filter_cons_of_neg (by simp [hp]), e]
      exact ih acc hnd.2 (fun k hk => hdis k (by simp [hk]))
    · have e : assignProp acc kv.1 (f kv.2) = acc ++ [(kv.1, f kv.2)] := by
        unfold assignProp
        rw [if_neg hp, setProp_of_not_mem acc kv.1 _ (hdis kv.1 (by simp))]
      rw [List.filter_cons_of_pos (by simp [hp]), e, List.map_cons]
      rw [ih (acc ++ [(kv.1, f kv.2)]) hnd.2]
      · simp
      · intro k hk
        simp only [List.map_append, List.map_cons, List.map_nil, List.mem_append,
          List.mem_singleton, not_or]
        refine ⟨hdis k (by simp [hk]), ?_⟩
        intro e
        exact hnd.1 (e ▸ hk)

theorem filter_not_proto (schema : Schema) (hproto : js "__proto__" ∉ schema.map Prod.fst) :
    schema.filter (fun kv => decide (kv.1 ≠ js "__proto__")) = schema := by
  rw [List.filter_eq_self]
  intro kv hkv
  have : kv.1 ≠ js "__proto__" := fun e => hproto (e ▸ List.mem_map_of_mem Prod.fst hkv)
  simpa using this

/-- For distinct names the fallback object has the schema's entries other than
`__proto__`, in order, each with its default. -/
theorem emptyFromSchema_filter (schema : Schema) (hnd : (schema.map Prod.fst).Nodup) :
    emptyFromSchema schema =
      .obj ((schema.filter (fun kv => decide (kv.1 ≠ js "__proto__"))).map
        (fun kv => (kv.1, defaultFor kv.2))) := by
  unfold emptyFromSchema
  rw [foldl_assignProp schema defaultFor [] hnd (by simp)]
  simp

/-- For a well-formed schema the fallback object has exactly the schema's
entries, in order, each with its default. -/
theorem emptyFromSchema_eq (schema : Schema) (hnd : (schema.map Prod.fst).Nodup)
    (hproto : js "__proto__" ∉ schema.map Prod.fst) :
    emptyFromSchema schema = .obj (schema.map (fun kv => (kv.1, defaultFor kv.2))) := by
  rw [emptyFromSchema_filter schema hnd, filter_not_proto schema hproto]

theorem lookupProp_map (schema : Schema) (f : JsString → JsVal)
    (hnd : (schema.map Prod.fst).Nodup) (kv : JsString × JsString) (hkv : kv ∈ schema) :
    lookupProp (schema.map (fun kv => (kv.1, f kv.2))) kv.1 = some (f kv.2) := by
  induction schema with
  | nil => simp at hkv
  | cons p rest ih =>
    simp only [List.map_cons, List.nodup_cons] at hnd
    simp only [List.map_cons, lookupProp]
    rcases List.mem_cons.mp hkv with e | e
    · subst e
      simp
    · have hne : p.1 ≠ kv.1 := by
        intro e1
        exact hnd.1 (e1 ▸ List.mem_map_of_mem Prod.fst e)
      simp [hne, ih hnd.2 e]

/-- The three ways the `try` block of an extraction attempt can end. -/
theorem extractTry_cases (o : Outcome) :
    (∃ content usage, o = .ok content usage ∧ extractAccepts o = true ∧
        extractTry o = .returned (reply (tryParseJson content) usage)) ∨
      (extractAccepts o = false ∧ o.isTransportFailure = false ∧
        extractTry o = .fellThrough) ∨
      (∃ e, extractAccepts o = false ∧ o.isTransportFailure = true ∧ o.error = some e ∧
        extractTry o = .thrown e) := by
  cases o with
  | threw e => exact Or.inr (Or.inr ⟨e, rfl, rfl, rfl, rfl⟩)
  | notOk status errorBody => exact Or.inr (Or.inr ⟨_, rfl, rfl, rfl, rfl⟩)
  | ok content usage =>
    by_cases ha : extractAccepts (.ok content usage) = true
    · left
      refine ⟨content, usage, rfl, ha, ?_⟩
      simp only [extractAccepts, Bool.and_eq_true, beq_iff_eq] at ha
      exact extractTry_of_accepts _ _ ha.1.1 ha.1.2 ha.2
    · right; left
      have ha1 : extractAccepts (.ok content usage) = false := by simpa using ha
      refine ⟨ha1, rfl, ?_⟩
      rcases extractTry_of_not_accepts _ ha1 with h | ⟨e, h⟩
      · exact h
      · simp only [extractTry] at h
        split at h
        · split at h <;> simp at h
        · simp at h

/-- The run of `extract` outside sample-data mode, in terms of how the `try`
blocks of its two attempts end. -/
theorem extract_two_attempts (net : Network) (jd_text : JsString) :
    extract false net jd_text =
      match extractTry (net 1), extractTry (net 2) with
      | .returned v, _ => some ⟨.resolved v, [.fetch 1]⟩
      | .fellThrough, .returned v => some ⟨.resolved v, [.fetch 1, .fetch 2]⟩
      | .fellThrough, .fellThrough =>
        some ⟨.resolved (reply (emptyFromSchema EXTRACTION_SCHEMA) zeroUsage),
          [.fetch 1, .fetch 2]⟩
      | .fellThrough, .thrown e => some ⟨.rejected e, [.fetch 1, .fetch 2]⟩
      | .thrown _, .returned v => some ⟨.resolved v, [.fetch 1, .wait 500, .fetch 2]⟩
      | .thrown _, .fellThrough =>
        some ⟨.resolved (reply (emptyFromSchema EXTRACTION_SCHEMA) zeroUsage),
          [.fetch 1, .wait 500, .fetch 2]⟩
      | .thrown _, .thrown e => some ⟨.rejected e, [.fetch 1, .wait 500, .fetch 2]⟩ := by
  cases h1 : extractTry (net 1) <;> cases h2 : extractTry (net 2) <;>
    simp [extract, extractWithLlm, extractLoop, h1, h2, Run.after]

/-! ## Lemmas: `tryParseJson` -/

theorem tryParseJson_str (s : JsString) :
    tryParseJson (.str s) =
      if indexOf s 0x7B = -1 ∨ lastIndexOf s 0x7D = -1 ∨ lastIndexOf s 0x7D ≤ indexOf s 0x7B
      then .null
      else
        match JSON.parse (substring s (indexOf s 0x7B) (lastIndexOf s 0x7D + 1)) with
        | some v => v
        | none => .null := by
  cases s with
  | nil => simp [tryParseJson, truthy, indexOf, indexOfFrom]
  | cons x xs => simp [tryParseJson, truthy, typeofJs]

/-- The span from the first `{` to the last `}` is what gets parsed. -/
theorem tryParseJson_span (a mid b : JsString) (ha : 0x7B ∉ a) (hb : 0x7D ∉ b) :
    tryParseJson (.str (a ++ (0x7B :: (mid ++ [0x7D])) ++ b)) =
      match JSON.parse (0x7B :: (mid ++ [0x7D])) with
      | some v => v
      | none => .null := by
  have e1 : a ++ (0x7B :: (mid ++ [0x7D])) ++ b = a ++ 0x7B :: (mid ++ [0x7D] ++ b) := by simp
  have e2 : a ++ (0x7B :: (mid ++ [0x7D])) ++ b = (a ++ 0x7B :: mid) ++ 0x7D :: b := by simp
  have e3 : a ++ (0x7B :: (mid ++ [0x7D])) ++ b = a ++ ((0x7B :: (mid ++ [0x7D])) ++ b) := by
    simp
  have hstart : indexOf (a ++ (0x7B :: (mid ++ [0x7D])) ++ b) 0x7B = a.length := by
    rw [e1]; exact indexOf_first _ _ _ ha
  have hstop : lastIndexOf (a ++ (0x7B :: (mid ++ [0x7D])) ++ b) 0x7D
      = ((a.length + mid.length + 1 : Nat) : Int) := by
    rw [e2, lastIndexOf_last _ _ _ hb]; simp; omega
  have hsub : substring (a ++ (0x7B :: (mid ++ [0x7D])) ++ b) (a.length : Int)
      (((a.length + mid.length + 1 : Nat) : Int) + 1) = 0x7B :: (mid ++ [0x7D]) := by
    have hl : ((a.length + mid.length + 1 : Nat) : Int) + 1
        = ((a.length + (0x7B :: (mid ++ [0x7D])).length : Nat) : Int) := by
      simp only [List.length_cons, List.length_append, List.length_nil]
      push_cast
      omega
    rw [e3, hl]
    exact substring_span a (0x7B :: (mid ++ [0x7D])) b
  rw [tryParseJson_str, hstart, hstop, hsub]
  have hc : ¬ ((a.length : Int) = -1 ∨ ((a.length + mid.length + 1 : Nat) : Int) = -1 ∨
      ((a.length + mid.length + 1 : Nat) : Int) ≤ (a.length : Int)) := by
    rintro (h | h | h) <;> omega
  rw [if_neg hc]

/-- A text with an object inside, no `{` before it and no `}` after it. -/
theorem tryParseJson_wrapped (pre J suf : JsString) (props : List (JsString × JsVal))
    (hJ : JSON.parse J = some (.obj props)) (hpre : 0x7B ∉ pre) (hsuf : 0x7D ∉ suf) :
    tryParseJson (.str (pre ++ J ++ suf)) = .obj props := by
  obtain ⟨a, mid, t, eJ, ha, ht, hp⟩ := JSON.parse_obj_span J props hJ
  have e : pre ++ J ++ suf = (pre ++ a) ++ (0x7B :: (mid ++ [0x7D])) ++ (t ++ suf) := by
    rw [eJ]; simp
  rw [e, tryParseJson_span (pre ++ a) mid (t ++ suf)
    (by simp [hpre, ha]) (by simp [ht, hsuf]), hp]

/-- No `}` after the first `{`: nothing is parsed. -/
theorem tryParseJson_no_span (pre post : JsString) (hpre : 0x7B ∉ pre) (hpost : 0x7D ∉ post) :
    tryParseJson (.str (pre ++ post)) = .null := by
  rw [tryParseJson_str]
  have hstop : lastIndexOf (pre ++ post) 0x7D < (pre.length : Int) := by
    unfold lastIndexOf
    rw [lastIndexOfFrom_append, lastIndexOfFrom_of_not_mem _ post _ _ hpost]
    have := lastIndexOfFrom_lt 0x7D pre 0 (-1) (by simp)
    simpa using this
  have hstart : indexOf (pre ++ post) 0x7B = -1 ∨ (pre.length : Int) ≤ indexOf (pre ++ post) 0x7B := by
    unfold indexOf
    rw [indexOfFrom_append_of_not_mem _ _ _ _ hpre]
    simpa using indexOfFrom_ge 0x7B post (0 + pre.length)
  have hc : indexOf (pre ++ post) 0x7B = -1 ∨ lastIndexOf (pre ++ post) 0x7D = -1 ∨
      lastIndexOf (pre ++ post) 0x7D ≤ indexOf (pre ++ post) 0x7B := by
    rcases hstart with h | h
    · exact Or.inl h
    · exact Or.inr (Or.inr (by omega))
  rw [if_pos hc]

/-! ## Lemmas: traces and the last attempt -/

theorem fetches_append (a b : List Event) : fetches (a ++ b) = fetches a ++ fetches b := by
  induction a with
  | nil => simp [fetches]
  | cons x xs ih => cases x <;> simp [fetches, ih]

theorem fetchCount_eq_length_fetches (t : List Event) : fetchCount t = (fetches t).length := by
  induction t with
  | nil => rfl
  | cons x xs ih => cases x <;> simp [fetches, fetchCount, ih]

theorem extractTry_of_error (o : Outcome) (e : JsError) (h : o.error = some e) :
    extractTry o = .thrown e := by
  cases o with
  | threw x => simp [Outcome.error] at h; subst h; rfl
  | notOk status errorBody => simp [Outcome.error] at h; subst h; rfl
  | ok content usage => simp [Outcome.error] at h

theorem compareTry_of_error (o : Outcome) (e : JsError) (h : o.error = some e) :
    compareTry o = .thrown e := by
  cases o with
  | threw x => simp [Outcome.error] at h; subst h; rfl
  | notOk status errorBody => simp [Outcome.error] at h; subst h; rfl
  | ok content usage => simp [Outcome.error] at h

/-- The three ways the `try` block of a comparison attempt can end. -/
theorem compareTry_cases (o : Outcome) :
    (∃ content usage, o = .ok content usage ∧ compareAccepts o = true ∧
        compareTry o = .returned (reply (tryParseJson content) usage)) ∨
      (compareAccepts o = false ∧ o.isTransportFailure = false ∧
        compareTry o = .fellThrough) ∨
      (∃ e, compareAccepts o = false ∧ o.isTransportFailure = true ∧ o.error = some e ∧
        compareTry o = .thrown e) := by
  cases o with
  | threw e => exact Or.inr (Or.inr ⟨e, rfl, rfl, rfl, rfl⟩)
  | notOk status errorBody => exact Or.inr (Or.inr ⟨_, rfl, rfl, rfl, rfl⟩)
  | ok content usage =>
    by_cases ha : compareAccepts (.ok content usage) = true
    · left
      refine ⟨content, usage, rfl, ha, ?_⟩
      simp only [compareAccepts, Bool.and_eq_true] at ha
      exact compareTry_of_accepts _ _ ha.1 ha.2
    · right; left
      have ha1 : compareAccepts (.ok content usage) = false := by simpa using ha
      refine ⟨ha1, rfl, ?_⟩
      rcases compareTry_of_not_accepts _ ha1 with h | ⟨e, h⟩
      · exact h
      · simp only [compareTry] at h
        split at h
        · split at h <;> simp at h
        · simp at h

/-- When no attempt before the last is accepted and the `try` block of the
last attempt throws, the extraction loop makes every attempt and rejects with
the error of the last one. -/
theorem extractLoop_last_throws (schema : Schema) (net : Network) (max_retries : Int)
    (k : Nat) (e : JsError) (hk : (k : Int) = max_retries)
    (hthrow : extractTry (net k) = .thrown e)
    (fuel attempt : Nat) (hle : attempt ≤ k) (hfuel : k - attempt < fuel)
    (hfail : ∀ i, attempt ≤ i → i < k → extractAccepts (net i) = false) :
    ∃ trace, extractLoop schema net max_retries fuel attempt = some ⟨.rejected e, trace⟩ ∧
      fetches trace = List.range' attempt (k - attempt + 1) := by
  induction fuel generalizing attempt with
  | zero => omega
  | succ fuel ih =>
    have hcond : (attempt : Int) ≤ max_retries := by omega
    simp only [extractLoop, if_pos hcond]
    by_cases hak : attempt = k
    · subst hak
      simp only [hthrow, if_pos hk]
      exact ⟨[.fetch attempt], rfl, by simp [fetches]⟩
    · have hlt : attempt < k := by omega
      have hne : ¬ ((attempt : Int) = max_retries) := by omega
      obtain ⟨trace, htr, hf⟩ :=
        ih (attempt + 1) (by omega) (by omega) (fun i h1 h2 => hfail i (by omega) h2)
      have hr : List.range' attempt (k - attempt + 1) =
          attempt :: List.range' (attempt + 1) (k - (attempt + 1) + 1) := by
        have : k - attempt + 1 = (k - (attempt + 1) + 1) + 1 := by omega
        rw [this, List.range'_succ]
      rcases extractTry_of_not_accepts _ (hfail attempt (le_refl _) hlt) with h | ⟨x, h⟩
      · simp only [h, htr, Run.after]
        exact ⟨_, rfl, by rw [fetches_append, hf, hr]; simp [fetches]⟩
      · simp only [h, if_neg hne, htr, Run.after]
        exact ⟨_, rfl, by rw [fetches_append, hf, hr]; simp [fetches]⟩

/-! ## Lemmas: the result of `tryParseJson` -/

namespace JSON

/-- A text that starts with `{` parses to an object or not at all. -/
theorem parse_lbrace (x : JsString) :
    parse (0x7B :: x) = none ∨ ∃ props, parse (0x7B :: x) = some (.obj props) := by
  have hstep : step init 0x7B = some ⟨.idle, .keyOrClose, [.obj []]⟩ := rfl
  unfold parse
  simp only [run, hstep]
  cases hr : run ⟨.idle, .keyOrClose, [.obj []]⟩ x with
  | none => exact Or.inl rfl
  | some stF =>
    rcases run_open_or_done ⟨.idle, .keyOrClose, [.obj []]⟩ x stF (Or.inl rfl) hr with h | h
    · exact Or.inl (finish_open stF h)
    · right
      obtain ⟨lex, expect, stack⟩ := stF
      obtain ⟨h1, h2, props, h3⟩ := h
      simp only at h1 h2 h3
      subst h1 h2 h3
      exact ⟨props, rfl⟩

end JSON

theorem mem_of_indexOfFrom_ne (c : Nat) (s : JsString) (i : Nat)
    (h : indexOfFrom c s i ≠ -1) : c ∈ s := by
  by_contra hc
  exact h (indexOfFrom_of_not_mem c s i hc)

theorem substring_head (a b : JsString) (c : Nat) (stop : Int)
    (h : (a.length : Int) < stop) :
    ∃ x, substring (a ++ c :: b) (a.length : Int) (stop + 1) = c :: x := by
  have hlen : (a ++ c :: b).length = a.length + (b.length + 1) := by simp
  have h1 : min (a.length : Int).toNat (a ++ c :: b).length = a.length := by
    rw [hlen]; simp
  have h2 : a.length + 1 ≤ min (stop + 1).toNat (a ++ c :: b).length := by
    rw [hlen]
    have : a.length + 1 ≤ (stop + 1).toNat := by omega
    omega
  unfold substring
  simp only [h1]
  have h3 : max a.length (min (stop + 1).toNat (a ++ c :: b).length) =
      min (stop + 1).toNat (a ++ c :: b).length := by omega
  have h4 : min a.length (min (stop + 1).toNat (a ++ c :: b).length) = a.length := by omega
  rw [h3, h4, List.take_append_eq_append_take, List.take_of_length_le (by omega),
    List.drop_left]
  obtain ⟨n, hn⟩ : ∃ n, min (stop + 1).toNat (a ++ c :: b).length - a.length = n + 1 :=
    ⟨min (stop + 1).toNat (a ++ c :: b).length - a.length - 1, by omega⟩
  rw [hn, List.take_succ_cons]
  exact ⟨_, rfl⟩

/-- Every result of `tryParseJson` is `null` or an object. -/
theorem tryParseJson_null_or_obj (text : JsVal) :
    tryParseJson text = .null ∨ ∃ props, tryParseJson text = .obj props := by
  cases text with
  | str s =>
    rw [tryParseJson_str]
    by_cases hc : indexOf s 0x7B = -1 ∨ lastIndexOf s 0x7D = -1 ∨
        lastIndexOf s 0x7D ≤ indexOf s 0x7B
    · rw [if_pos hc]; exact Or.inl rfl
    · rw [if_neg hc]
      simp only [not_or, not_le] at hc
      obtain ⟨a, b, e, ha⟩ := JSON.mem_split_first 0x7B s (mem_of_indexOfFrom_ne _ _ _ hc.1)
      subst e
      have hstart := indexOf_first 0x7B a b ha
      rw [hstart] at hc ⊢
      obtain ⟨x, hx⟩ := substring_head a b 0x7B _ hc.2.2
      rw [hx]
      rcases JSON.parse_lbrace x with h | ⟨props, h⟩
      · rw [h]; exact Or.inl rfl
      · rw [h]; exact Or.inr ⟨props, rfl⟩
  | _ => left; simp [tryParseJson, typeofJs]

theorem tryParseJson_of_not_string (v : JsVal) (h : typeofJs v ≠ .string) :
    tryParseJson v = .null := by
  cases v with
  | str s => simp [typeofJs] at h
  | _ => simp [tryParseJson, typeofJs]

/-! ## Lemmas: the extraction prompt -/

theorem template_obj_eq_emptyFromSchema (schema : Schema) :
    template_obj schema = emptyFromSchema schema := rfl

theorem setProp_values (props : List (JsString × JsVal)) (k : JsString) (v : JsVal)
    (P : JsVal → Prop) (hv : P v) (h : ∀ kv ∈ props, P kv.2) :
    ∀ kv ∈ setProp props k v, P kv.2 := by
  induction props with
  | nil =>
    intro kv hkv
    simp [setProp] at hkv
    subst hkv
    exact hv
  | cons p rest ih =>
    obtain ⟨k1, v1⟩ := p
    intro kv hkv
    simp only [setProp] at hkv
    split at hkv
    · rcases List.mem_cons.mp hkv with e | e
      · subst e; exact hv
      · exact h kv (List.mem_cons_of_mem _ e)
    · rcases List.mem_cons.mp hkv with e | e
      · subst e; exact h _ (List.mem_cons_self _ _)
      · exact ih (fun kv hkv => h kv (List.mem_cons_of_mem _ hkv)) kv e

theorem assignProp_values (props : List (JsString × JsVal)) (k : JsString) (v : JsVal)
    (P : JsVal → Prop) (hv : P v) (h : ∀ kv ∈ props, P kv.2) :
    ∀ kv ∈ assignProp props k v, P kv.2 := by
  unfold assignProp
  split
  · exact h
  · exact setProp_values props k v P hv h

theorem foldl_assignProp_values (schema : Schema) (f : JsString → JsVal) (P : JsVal → Prop)
    (hf : ∀ hint, P (f hint)) (acc : List (JsString × JsVal)) (h : ∀ kv ∈ acc, P kv.2) :
    ∀ kv ∈ schema.foldl (fun t kv => assignProp t kv.1 (f kv.2)) acc, P kv.2 := by
  induction schema generalizing acc with
  | nil => simpa using h
  | cons p rest ih =>
    simp only [List.foldl_cons]
    exact ih _ (assignProp_values acc p.1 (f p.2) P (hf p.2) h)

namespace JSON

theorem stringifyProps_defaults (depth : Nat) (props : List (JsString × JsVal))
    (h : ∀ kv ∈ props, kv.2 = .arr [] ∨ kv.2 = .null) :
    ∃ parts, stringifyProps depth props = some parts := by
  induction props with
  | nil => exact ⟨[], by simp [stringifyProps]⟩
  | cons p rest ih =>
    obtain ⟨k, v⟩ := p
    obtain ⟨parts, hp⟩ := ih (fun kv hkv => h kv (List.mem_cons_of_mem _ hkv))
    rcases h (k, v) (List.mem_cons_self _ _) with e | e
    · simp only at e
      subst e
      exact ⟨(quote k ++ [0x3A, 0x20] ++ layout 0x5B 0x5D depth []) :: parts,
        by simp [stringifyProps, stringifyAt, stringifyItems, hp]⟩
    · simp only at e
      subst e
      exact ⟨(quote k ++ [0x3A, 0x20] ++ js "null") :: parts,
        by simp [stringifyProps, stringifyAt, hp]⟩

end JSON

/-- The template object always has a JSON text. -/
theorem stringify_template_obj (schema : Schema) :
    ∃ template_json, JSON.stringify (template_obj schema) = some template_json := by
  have hvals : ∀ kv ∈ schema.foldl
      (fun t kv => assignProp t kv.1 (if includes kv.2 (js "list") then JsVal.arr [] else .null))
      [], kv.2 = .arr [] ∨ kv.2 = .null :=
    foldl_assignProp_values schema (fun hint => if includes hint (js "list") then .arr [] else .null)
      (fun v => v = .arr [] ∨ v = .null)
      (fun hint => by dsimp only; split <;> simp) [] (by simp)
  obtain ⟨parts, hp⟩ := JSON.stringifyProps_defaults 1 _ hvals
  exact ⟨JSON.layout 0x7B 0x7D 0 parts,
    by simp [JSON.stringify, template_obj, JSON.stringifyAt, hp]⟩

/-- Shape of the prompt: the part before the job text and the part after it do
not depend on the job text. -/
theorem get_extraction_prompt_shape (schema : Schema) :
    ∃ template_json, JSON.stringify (template_obj schema) = some template_json ∧
      ∀ jd_text, get_extraction_prompt jd_text (some schema) =
        some ((EXTRACTION_INSTRUCTIONS_HEADER ++ js "\n\n" ++
          js "Schema fields (name: type/hint):\n\n" ++
          _schema_fields_text schema ++ js "\n\n" ++
          js "Please return a single JSON object following this template EXACTLY:\n\n" ++
          template_json ++ js "\n\n" ++
          js "Job description:\n--------\n") ++
          trim jd_text ++ js "\n--------\n\nReturn ONLY the JSON object.") := by
  obtain ⟨template_json, ht⟩ := stringify_template_obj schema
  refine ⟨template_json, ht, fun jd_text => ?_⟩
  have e : js "\n--------\n\nReturn ONLY the JSON object." =
      js "\n" ++ js "--------\n\n" ++ js "Return ONLY the JSON object." := by decide
  simp only [get_extraction_prompt, Option.getD_some, ht, e, List.append_assoc]

theorem intercalate_mem (sep l : JsString) (ls : List JsString) (h : l ∈ ls) :
    ∃ a b, sep.intercalate ls = a ++ l ++ b := by
  induction ls with
  | nil => simp at h
  | cons x xs ih =>
    cases xs with
    | nil =>
      simp only [List.mem_singleton] at h
      subst h
      exact ⟨[], [], by simp [List.intercalate]⟩
    | cons y ys =>
      rcases List.mem_cons.mp h with e | e
      · subst e
        exact ⟨[], sep ++ sep.intercalate (y :: ys), by simp [List.intercalate]⟩
      · obtain ⟨a, b, hab⟩ := ih e
        refine ⟨x ++ sep ++ a, b, ?_⟩
        have e1 : sep.intercalate (x :: y :: ys) = x ++ sep ++ sep.intercalate (y :: ys) := by
          simp [List.intercalate]
        rw [e1, hab]
        simp

theorem countOccurrences_pos (pat a b : JsString) :
    1 ≤ countOccurrences pat (a ++ pat ++ b) := by
  unfold countOccurrences
  apply List.length_pos_of_mem (a := pat ++ b)
  rw [List.mem_filter]
  refine ⟨?_, by simp⟩
  rw [List.mem_tails]
  exact ⟨a, by simp⟩

/-! ## Lemmas: the order of the attempts -/

theorem Run.after_eq_some (evs : List Event) (x : Option Run) (r : Run)
    (h : Run.after evs x = some r) :
    ∃ r1, x = some r1 ∧ r.trace = evs ++ r1.trace ∧ r.settled = r1.settled := by
  cases x with
  | none => simp [Run.after] at h
  | some r1 =>
    simp only [Run.after, Option.some.injEq] at h
    subst h
    exact ⟨r1, rfl, rfl, rfl⟩

/-- The extraction loop calls the network for consecutive attempt numbers, none
above `max_retries`, and every attempt but the last one made was not
accepted. -/
theorem extractLoop_fetches (schema : Schema) (net : Network) (max_retries : Int)
    (fuel attempt : Nat) (r : Run)
    (h : extractLoop schema net max_retries fuel attempt = some r) :
    ∃ n, fetches r.trace = List.range' attempt n ∧
      (∀ j, attempt ≤ j → j < attempt + n → (j : Int) ≤ max_retries) ∧
      (∀ j, attempt ≤ j → j + 1 < attempt + n → extractAccepts (net j) = false) := by
  induction fuel generalizing attempt r with
  | zero => simp [extractLoop] at h
  | succ fuel ih =>
    simp only [extractLoop] at h
    by_cases hle : (attempt : Int) ≤ max_retries
    · simp only [if_pos hle] at h
      have one : ∀ s, r = ⟨s, [.fetch attempt]⟩ →
          ∃ n, fetches r.trace = List.range' attempt n ∧
            (∀ j, attempt ≤ j → j < attempt + n → (j : Int) ≤ max_retries) ∧
            (∀ j, attempt ≤ j → j + 1 < attempt + n → extractAccepts (net j) = false) := by
        intro s hs
        subst hs
        refine ⟨1, by simp [fetches], ?_, ?_⟩
        · intro j h1 h2
          have : j = attempt := by omega
          subst this; exact hle
        · intro j h1 h2; omega
      have more : ∀ evs, fetches evs = [attempt] → extractAccepts (net attempt) = false →
          Run.after evs (extractLoop schema net max_retries fuel (attempt + 1)) = some r →
          ∃ n, fetches r.trace = List.range' attempt n ∧
            (∀ j, attempt ≤ j → j < attempt + n → (j : Int) ≤ max_retries) ∧
            (∀ j, attempt ≤ j → j + 1 < attempt + n → extractAccepts (net j) = false) := by
        intro evs hevs hrej hafter
        obtain ⟨r1, hr1, htrace, _⟩ := Run.after_eq_some _ _ _ hafter
        obtain ⟨n, hf, hb, hrejs⟩ := ih (attempt + 1) r1 hr1
        refine ⟨n + 1, ?_, ?_, ?_⟩
        · rw [htrace, fetches_append, hevs, hf, List.range'_succ]; rfl
        · intro j h1 h2
          by_cases hj : j = attempt
          · subst hj; exact hle
          · exact hb j (by omega) (by omega)
        · intro j h1 h2
          by_cases hj : j = attempt
          · subst hj; exact hrej
          · exact hrejs j (by omega) (by omega)
      rcases extractTry_cases (net attempt) with
        ⟨c1, u1, e1, b1, t1⟩ | ⟨b1, f1, t1⟩ | ⟨x1, b1, f1, r1, t1⟩
      · simp only [t1, Option.some.injEq] at h
        exact one _ h.symm
      · simp only [t1] at h
        exact more [.fetch attempt] rfl b1 h
      · simp only [t1] at h
        by_cases hlast : (attempt : Int) = max_retries
        · simp only [if_pos hlast, Option.some.injEq] at h
          exact one _ h.symm
        · simp only [if_neg hlast] at h
          exact more [.fetch attempt, .wait 500] rfl b1 h
    · simp only [if_neg hle, Option.some.injEq] at h
      subst h
      exact ⟨0, by simp [fetches], fun j h1 h2 => by omega, fun j h1 h2 => by omega⟩

/-- The comparison loop calls the network for consecutive attempt numbers, none
above `max_retries`, and every attempt but the last one made was not
accepted. -/
theorem compareLoop_fetches (net : Network) (max_retries : Int)
    (fuel attempt : Nat) (r : Run)
    (h : compareLoop net max_retries fuel attempt = some r) :
    ∃ n, fetches r.trace = List.range' attempt n ∧
      (∀ j, attempt ≤ j → j < attempt + n → (j : Int) ≤ max_retries) ∧
      (∀ j, attempt ≤ j → j + 1 < attempt + n → compareAccepts (net j) = false) := by
  induction fuel generalizing attempt r with
  | zero => simp [compareLoop] at h
  | succ fuel ih =>
    simp only [compareLoop] at h
    by_cases hle : (attempt : Int) ≤ max_retries
    · simp only [if_pos hle] at h
      have one : ∀ s, r = ⟨s, [.fetch attempt]⟩ →
          ∃ n, fetches r.trace = List.range' attempt n ∧
            (∀ j, attempt ≤ j → j < attempt + n → (j : Int) ≤ max_retries) ∧
            (∀ j, attempt ≤ j → j + 1 < attempt + n → compareAccepts (net j) = false) := by
        intro s hs
        subst hs
        refine ⟨1, by simp [fetches], ?_, ?_⟩
        · intro j h1 h2
          have : j = attempt := by omega
          subst this; exact hle
        · intro j h1 h2; omega
      have more : ∀ evs, fetches evs = [attempt] → compareAccepts (net attempt) = false →
          Run.after evs (compareLoop net max_retries fuel (attempt + 1)) = some r →
          ∃ n, fetches r.trace = List.range' attempt n ∧
            (∀ j, attempt ≤ j → j < attempt + n → (j : Int) ≤ max_retries) ∧
            (∀ j, attempt ≤ j → j + 1 < attempt + n → compareAccepts (net j) = false) := by
        intro evs hevs hrej hafter
        obtain ⟨r1, hr1, htrace, _⟩ := Run.after_eq_some _ _ _ hafter
        obtain ⟨n, hf, hb, hrejs⟩ := ih (attempt + 1) r1 hr1
        refine ⟨n + 1, ?_, ?_, ?_⟩
        · rw [htrace, fetches_append, hevs, hf, List.range'_succ]; rfl
        · intro j h1 h2
          by_cases hj : j = attempt
          · subst hj; exact hle
          · exact hb j (by omega) (by omega)
        · intro j h1 h2
          by_cases hj : j = attempt
          · subst hj; exact hrej
          · exact hrejs j (by omega) (by omega)
      rcases compareTry_cases (net attempt) with
        ⟨c1, u1, e1, b1, t1⟩ | ⟨b1, f1, t1⟩ | ⟨x1, b1, f1, r1, t1⟩
      · simp only [t1, Option.some.injEq] at h
        exact one _ h.symm
      · simp only [t1] at h
        exact more [.fetch attempt] rfl b1 h
      · simp only [t1] at h
        by_cases hlast : (attempt : Int) = max_retries
        · simp only [if_pos hlast, Option.some.injEq] at h
          exact one _ h.symm
        · simp only [if_neg hlast] at h
          exact more [.fetch attempt, .wait 500] rfl b1 h
    · simp only [if_neg hle, Option.some.injEq] at h
      subst h
      exact ⟨0, by simp [fetches], fun j h1 h2 => by omega, fun j h1 h2 => by omega⟩

/-- What the consecutive numbering of the calls gives for a run that starts
with attempt 1. -/
theorem attempts_of_fetches (max_retries : Int) (accepts : Nat → Bool) (trace : List Event)
    (n : Nat) (hf : fetches trace = List.range' 1 n)
    (hb : ∀ j, 1 ≤ j → j < 1 + n → (j : Int) ≤ max_retries)
    (hrej : ∀ j, 1 ≤ j → j + 1 < 1 + n → accepts j = false) :
    fetchCount trace ≤ max_retries.toNat ∧
      fetches trace = List.range' 1 (fetchCount trace) ∧
      ∀ i, 1 ≤ i → i + 1 ∈ fetches trace → accepts i = false ∧ (i : Int) < max_retries := by
  have hn : fetchCount trace = n := by
    rw [fetchCount_eq_length_fetches, hf]; simp
  refine ⟨?_, by rw [hn]; exact hf, ?_⟩
  · rw [hn]
    by_cases h0 : n = 0
    · omega
    · have := hb n (by omega) (by omega)
      omega
  · intro i h1 hmem
    rw [hf, List.mem_range'_1] at hmem
    refine ⟨hrej i h1 (by omega), ?_⟩
    have := hb (i + 1) (by omega) (by omega)
    push_cast at this
    omega

/-! ## Lemmas: where the waits are -/

theorem fetches_traceOfAttempts (net : Network) (max_retries : Int) (l : List Nat) :
    fetches (traceOfAttempts net max_retries l) = l := by
  induction l with
  | nil => rfl
  | cons i rest ih =>
    simp only [traceOfAttempts, fetches, fetches_append, ih]
    split <;> simp [fetches]

theorem waitCount_traceOfAttempts (net : Network) (max_retries : Int) (l : List Nat) :
    waitCount (traceOfAttempts net max_retries l) =
      (l.filter (delayedAfter net max_retries)).length := by
  induction l with
  | nil => rfl
  | cons i rest ih =>
    simp only [traceOfAttempts, waitCount, waitCount_append, ih, List.filter_cons]
    split <;> simp [waitCount]
    omega

/-- The trace of the extraction loop: calls in order, a 500 ms wait exactly
after a throwing attempt that is not the last, and a call as last event. -/
theorem extractLoop_trace (schema : Schema) (net : Network) (max_retries : Int)
    (fuel attempt : Nat) (r : Run)
    (h : extractLoop schema net max_retries fuel attempt = some r) :
    r.trace = traceOfAttempts net max_retries (fetches r.trace) ∧
      ((attempt : Int) ≤ max_retries → ∃ k, r.trace.getLast? = some (.fetch k)) := by
  induction fuel generalizing attempt r with
  | zero => simp [extractLoop] at h
  | succ fuel ih =>
    simp only [extractLoop] at h
    by_cases hle : (attempt : Int) ≤ max_retries
    · simp only [if_pos hle] at h
      have one : ∀ s, delayedAfter net max_retries attempt = false →
          r = ⟨s, [.fetch attempt]⟩ →
          r.trace = traceOfAttempts net max_retries (fetches r.trace) ∧
            ((attempt : Int) ≤ max_retries → ∃ k, r.trace.getLast? = some (.fetch k)) := by
        intro s hd hs
        subst hs
        exact ⟨by simp [fetches, traceOfAttempts, hd], fun _ => ⟨attempt, rfl⟩⟩
      have more : ∀ evs, evs = .fetch attempt ::
            (if delayedAfter net max_retries attempt then [.wait 500] else []) →
          (delayedAfter net max_retries attempt = true → (attempt : Int) < max_retries) →
          Run.after evs (extractLoop schema net max_retries fuel (attempt + 1)) = some r →
          r.trace = traceOfAttempts net max_retries (fetches r.trace) ∧
            ((attempt : Int) ≤ max_retries → ∃ k, r.trace.getLast? = some (.fetch k)) := by
        intro evs hevs hlt hafter
        obtain ⟨r1, hr1, htrace, _⟩ := Run.after_eq_some _ _ _ hafter
        obtain ⟨ht, hlast⟩ := ih (attempt + 1) r1 hr1
        have hfe : fetches evs = [attempt] := by
          rw [hevs]; simp only [fetches]; split <;> simp [fetches]
        constructor
        · rw [htrace, fetches_append, hfe, List.singleton_append]
          simp only [traceOfAttempts]
          rw [← ht, hevs]
          simp
        · intro _
          by_cases hnext : ((attempt + 1 : Nat) : Int) ≤ max_retries
          · obtain ⟨k, hk⟩ := hlast hnext
            exact ⟨k, by rw [htrace]; exact getLast?_append_of_getLast? _ _ _ hk⟩
          · have hd : delayedAfter net max_retries attempt = false := by
              by_contra hc
              have := hlt (by simpa using hc)
              push_cast at hnext
              omega
            have hr1t : r1.trace = [] := by
              cases fuel with
              | zero => simp [extractLoop] at hr1
              | succ f =>
                simp only [extractLoop, if_neg hnext, Option.some.injEq] at hr1
                rw [← hr1]
            exact ⟨attempt, by rw [htrace, hr1t, hevs, hd]; rfl⟩
      rcases extractTry_cases (net attempt) with
        ⟨c1, u1, e1, b1, t1⟩ | ⟨b1, f1, t1⟩ | ⟨x1, b1, f1, r1, t1⟩
      · simp only [t1, Option.some.injEq] at h
        exact one _ (by simp [delayedAfter, e1, Outcome.isTransportFailure]) h.symm
      · simp only [t1] at h
        have hd : delayedAfter net max_retries attempt = false := by simp [delayedAfter, f1]
        exact more [.fetch attempt] (by simp [hd]) (by simp [hd]) h
      · simp only [t1] at h
        by_cases hlast : (attempt : Int) = max_retries
        · simp only [if_pos hlast, Option.some.injEq] at h
          exact one _ (by simp [delayedAfter, hlast]) h.symm
        · simp only [if_neg hlast] at h
          have hd : delayedAfter net max_retries attempt = true := by
            simp only [delayedAfter, f1, Bool.true_and, decide_eq_true_eq]
            omega
          exact more [.fetch attempt, .wait 500] (by simp [hd]) (fun _ => by omega) h
    · simp only [if_neg hle, Option.some.injEq] at h
      subst h
      exact ⟨rfl, fun hc => absurd hc hle⟩

/-- The trace of the comparison loop: calls in order, a 500 ms wait exactly
after a throwing attempt that is not the last, and a call as last event. -/
theorem compareLoop_trace (net : Network) (max_retries : Int)
    (fuel attempt : Nat) (r : Run)
    (h : compareLoop net max_retries fuel attempt = some r) :
    r.trace = traceOfAttempts net max_retries (fetches r.trace) ∧
      ((attempt : Int) ≤ max_retries → ∃ k, r.trace.getLast? = some (.fetch k)) := by
  induction fuel generalizing attempt r with
  | zero => simp [compareLoop] at h
  | succ fuel ih =>
    simp only [compareLoop] at h
    by_cases hle : (attempt : Int) ≤ max_retries
    · simp only [if_pos hle] at h
      have one : ∀ s, delayedAfter net max_retries attempt = false →
          r = ⟨s, [.fetch attempt]⟩ →
          r.trace = traceOfAttempts net max_retries (fetches r.trace) ∧
            ((attempt : Int) ≤ max_retries → ∃ k, r.trace.getLast? = some (.fetch k)) := by
        intro s hd hs
        subst hs
        exact ⟨by simp [fetches, traceOfAttempts, hd], fun _ => ⟨attempt, rfl⟩⟩
      have more : ∀ evs, evs = .fetch attempt ::
            (if delayedAfter net max_retries attempt then [.wait 500] else []) →
          (delayedAfter net max_retries attempt = true → (attempt : Int) < max_retries) →
          Run.after evs (compareLoop net max_retries fuel (attempt + 1)) = some r →
          r.trace = traceOfAttempts net max_retries (fetches r.trace) ∧
            ((attempt : Int) ≤ max_retries → ∃ k, r.trace.getLast? = some (.fetch k)) := by
        intro evs hevs hlt hafter
        obtain ⟨r1, hr1, htrace, _⟩ := Run.after_eq_some _ _ _ hafter
        obtain ⟨ht, hlast⟩ := ih (attempt + 1) r1 hr1
        have hfe : fetches evs = [attempt] := by
          rw [hevs]; simp only [fetches]; split <;> simp [fetches]
        constructor
        · rw [htrace, fetches_append, hfe, List.singleton_append]
          simp only [traceOfAttempts]
          rw [← ht, hevs]
          simp
        · intro _
          by_cases hnext : ((attempt + 1 : Nat) : Int) ≤ max_retries
          · obtain ⟨k, hk⟩ := hlast hnext
            exact ⟨k, by rw [htrace]; exact getLast?_append_of_getLast? _ _ _ hk⟩
          · have hd : delayedAfter net max_retries attempt = false := by
              by_contra hc
              have := hlt (by simpa using hc)
              push_cast at hnext
              omega
            have hr1t : r1.trace = [] := by
              cases fuel with
              | zero => simp [compareLoop] at hr1
              | succ f =>
                simp only [compareLoop, if_neg hnext, Option.some.injEq] at hr1
                rw [← hr1]
            exact ⟨attempt, by rw [htrace, hr1t, hevs, hd]; rfl⟩
      rcases compareTry_cases (net attempt) with
        ⟨c1, u1, e1, b1, t1⟩ | ⟨b1, f1, t1⟩ | ⟨x1, b1, f1, r1, t1⟩
      · simp only [t1, Option.some.injEq] at h
        exact one _ (by simp [delayedAfter, e1, Outcome.isTransportFailure]) h.symm
      · simp only [t1] at h
        have hd : delayedAfter net max_retries attempt = false := by simp [delayedAfter, f1]
        exact more [.fetch attempt] (by simp [hd]) (by simp [hd]) h
      · simp only [t1] at h
        by_cases hlast : (attempt : Int) = max_retries
        · simp only [if_pos hlast, Option.some.injEq] at h
          exact one _ (by simp [delayedAfter, hlast]) h.symm
        · simp only [if_neg hlast] at h
          have hd : delayedAfter net max_retries attempt = true := by
            simp only [delayedAfter, f1, Bool.true_and, decide_eq_true_eq]
            omega
          exact more [.fetch attempt, .wait 500] (by simp [hd]) (fun _ => by omega) h
    · simp only [if_neg hle, Option.some.injEq] at h
      subst h
      exact ⟨rfl, fun hc => absurd hc hle⟩

/-! ## Claims -/

/-- C1 (as stated, refuted). The text `}{}` has unbalanced braces, yet
`tryParseJson` does not return `null` for it: it returns the empty object found
between the first `{` and the last `}`. -/
theorem C1_unbalanced_braces_counterexample :
    bracesBalanced (js "\x7d\x7b\x7d") = false ∧ tryParseJson (.str (js "\x7d\x7b\x7d")) = .obj [] ∧
      tryParseJson (.str (js "\x7d\x7b\x7d")) ≠ .null :=
  ⟨rfl, rfl, fun h => JsVal.noConfusion (Eq.trans (Eq.symm (rfl : tryParseJson (.str (js "\x7d\x7b\x7d")) = .obj [])) h)⟩

/-- C1 (amended). For every text in which no `}` comes after the first `{`
(the empty string, a text with no braces, with no `{`, with no `}`, or with
every `}` before every `{`), `tryParseJson` returns `null`; being a total
function it never throws. -/
theorem C1_malformed_gives_null (pre post : JsString)
    (hpre : 0x7B ∉ pre) (hpost : 0x7D ∉ post) :
    tryParseJson (.str (pre ++ post)) = .null :=
  tryParseJson_no_span pre post hpre hpost

/-- C1 witness: the unbalanced text `}{`, the brace-free text `no json`, and
the empty string. -/
theorem C1_malformed_gives_null_witness :
    tryParseJson (.str (js "\x7d" ++ js "\x7b")) = .null ∧
      tryParseJson (.str (js "no json" ++ [])) = .null ∧
      tryParseJson (.str ([] ++ [])) = .null :=
  ⟨C1_malformed_gives_null (js "\x7d") (js "\x7b") (by decide) (by decide),
   C1_malformed_gives_null (js "no json") [] (by decide) (by decide),
   C1_malformed_gives_null [] [] (by decide) (by decide)⟩

/-- C2 (as stated, refuted). With prefix `{`, the valid object text `{}` and
an empty suffix, `JSON.parse` of the object text gives the empty object but
`tryParseJson` of the whole gives `null`. -/
theorem C2_arbitrary_prefix_counterexample :
    JSON.parse (js "\x7b\x7d") = some (.obj []) ∧
      tryParseJson (.str (js "\x7b" ++ js "\x7b\x7d" ++ js "")) = .null :=
  ⟨rfl, rfl⟩

/-- C2 (amended). For every text `prefix + J + suffix` where `J` is the text
of a valid JSON object, `prefix` contains no `{` and `suffix` contains no `}`,
`tryParseJson` returns the object `JSON.parse(J)`. -/
theorem C2_embedded_object (pre J suf : JsString) (props : List (JsString × JsVal))
    (hJ : JSON.parse J = some (.obj props)) (hpre : 0x7B ∉ pre) (hsuf : 0x7D ∉ suf) :
    tryParseJson (.str (pre ++ J ++ suf)) = .obj props :=
  tryParseJson_wrapped pre J suf props hJ hpre hsuf

/-- C2 witness: `Here you go: {"a": 1} Thanks!`. -/
theorem C2_embedded_object_witness :
    tryParseJson (.str (js "Here you go: " ++ js " \x7b\"a\": 1\x7d " ++ js " Thanks!")) =
      .obj [(js "a", .num false 1 0)] :=
  C2_embedded_object (js "Here you go: ") (js " \x7b\"a\": 1\x7d ") (js " Thanks!")
    [(js "a", .num false 1 0)] rfl (by decide) (by decide)

/-- C3. `tryParseJson` tolerates prose and markdown code fences: for every
valid JSON object text `J`, every prefix with no `{` and every suffix with no
`}` the result is `JSON.parse(J)`; in particular for the fence that opens with
three backticks and `json` and closes with three backticks. -/
theorem C3_tolerates_prose_and_fences (J : JsString) (props : List (JsString × JsVal))
    (hJ : JSON.parse J = some (.obj props)) :
    (∀ pre suf : JsString, 0x7B ∉ pre → 0x7D ∉ suf →
        tryParseJson (.str (pre ++ J ++ suf)) = .obj props) ∧
      tryParseJson (.str (js "```json\n" ++ J ++ js "\n```")) = .obj props :=
  ⟨fun pre suf hpre hsuf => tryParseJson_wrapped pre J suf props hJ hpre hsuf,
   tryParseJson_wrapped _ J _ props hJ (by decide) (by decide)⟩

/-- C3 witness: a fenced object with nested braces and a brace inside a
string value. -/
theorem C3_tolerates_prose_and_fences_witness :
    tryParseJson (.str (js "```json\n" ++ js "\x7b\"a\": \x7b\"b\": \"\x7d\"\x7d\x7d" ++ js "\n```")) =
      .obj [(js "a", .obj [(js "b", .str (js "\x7d"))])] :=
  (C3_tolerates_prose_and_fences (js "\x7b\"a\": \x7b\"b\": \"\x7d\"\x7d\x7d")
    [(js "a", .obj [(js "b", .str (js "\x7d"))])] rfl).2

/-- C4 (code defect). `validateOutputStruct` accepts an object whose `fields`
value is `null`, and one whose `fields` value is an array, because
`typeof null` and `typeof []` are both `"object"`. -/
theorem C4_validateOutputStruct_accepts_null_and_array_fields :
    validateOutputStruct
        (.obj [(js "overall_eligibility", .str (js "grey")), (js "fields", .null)]) = true ∧
      validateOutputStruct
        (.obj [(js "overall_eligibility", .str (js "grey")), (js "fields", .arr [])]) = true :=
  ⟨rfl, rfl⟩

/-- C5. In either pipeline, when attempts `1 .. k-1` are not accepted and
attempt `k ≤ max_retries` has a success status and content that the parser
parses and the pipeline's validator accepts, the call resolves with the object
`{data: parsed, usage: usage of attempt k}` (`parsed` is the parser's result,
unchanged), makes exactly `k` network calls, and the call of attempt `k` is the
last thing it does. -/
theorem C5_returns_at_first_accepted_attempt (net : Network) (max_retries : Int) (k : Nat)
    (content usage : JsVal) (hk1 : 1 ≤ k) (hk : (k : Int) ≤ max_retries)
    (hok : net k = .ok content usage) (hcontent : truthy content = true) :
    (∀ (schema : Schema) (jd_text : JsString),
        (∀ i, 1 ≤ i → i < k → extractAccepts (net i) = false) →
        truthy (tryParseJson content) = true →
        typeofJs (tryParseJson content) = .object →
        ∃ trace, extractWithLlm false schema net jd_text (some max_retries) =
            some ⟨.resolved (.obj [(js "data", tryParseJson content), (js "usage", usage)]),
              trace⟩ ∧
          fetchCount trace = k ∧ trace.getLast? = some (.fetch k)) ∧
      (∀ (extracted_json : JsVal) (profile_json : Option JsVal),
        (∀ i, 1 ≤ i → i < k → compareAccepts (net i) = false) →
        validateOutputStruct (tryParseJson content) = true →
        ∃ trace, compareJd false net extracted_json profile_json (some max_retries) =
            some ⟨.resolved (.obj [(js "data", tryParseJson content), (js "usage", usage)]),
              trace⟩ ∧
          fetchCount trace = k ∧ trace.getLast? = some (.fetch k)) := by
  have hfuel : k - 1 < max_retries.toNat + 1 := by omega
  constructor
  · intro schema jd_text hfail h2 h3
    have hret : extractTry (net k) = .returned (reply (tryParseJson content) usage) := by
      rw [hok]; exact extractTry_of_accepts content usage hcontent h2 h3
    obtain ⟨trace, htr, hcount, hlast⟩ :=
      extractLoop_accept schema net max_retries k _ hk hret (max_retries.toNat + 1) 1 hk1
        hfuel hfail
    refine ⟨trace, ?_, by omega, hlast⟩
    simpa [extractWithLlm, reply] using htr
  · intro extracted_json profile_json hfail h2
    have hret : compareTry (net k) = .returned (reply (tryParseJson content) usage) := by
      rw [hok]; exact compareTry_of_accepts content usage hcontent h2
    obtain ⟨trace, htr, hcount, hlast⟩ :=
      compareLoop_accept net max_retries k _ hk hret (max_retries.toNat + 1) 1 hk1
        hfuel hfail
    refine ⟨trace, ?_, by omega, hlast⟩
    simpa [compareJd, reply] using htr

/-- C5 witness: first call throws, second is accepted, `max_retries = 2`. -/
theorem C5_returns_at_first_accepted_attempt_witness :
    (∃ trace, extractWithLlm false EXTRACTION_SCHEMA
        (fun i => if i = 1 then .threw ⟨js "Failed to fetch"⟩
          else .ok (.str (js "\x7b\"overall_eligibility\":\"green\",\"fields\":\x7b\x7d\x7d"))
            (.obj [(js "total_tokens", .num false 42 0)]))
        (js "job text") (some 2) =
        some ⟨.resolved (.obj [
          (js "data",
            tryParseJson
              (.str (js "\x7b\"overall_eligibility\":\"green\",\"fields\":\x7b\x7d\x7d"))),
          (js "usage", .obj [(js "total_tokens", .num false 42 0)])]), trace⟩ ∧
      fetchCount trace = 2 ∧ trace.getLast? = some (.fetch 2)) ∧
    (∃ trace, compareJd false
        (fun i => if i = 1 then .threw ⟨js "Failed to fetch"⟩
          else .ok (.str (js "\x7b\"overall_eligibility\":\"green\",\"fields\":\x7b\x7d\x7d"))
            (.obj [(js "total_tokens", .num false 42 0)]))
        .null none (some 2) =
        some ⟨.resolved (.obj [
          (js "data",
            tryParseJson
              (.str (js "\x7b\"overall_eligibility\":\"green\",\"fields\":\x7b\x7d\x7d"))),
          (js "usage", .obj [(js "total_tokens", .num false 42 0)])]), trace⟩ ∧
      fetchCount trace = 2 ∧ trace.getLast? = some (.fetch 2)) :=
  have h := C5_returns_at_first_accepted_attempt
    (fun i => if i = 1 then .threw ⟨js "Failed to fetch"⟩
          else .ok (.str (js "\x7b\"overall_eligibility\":\"green\",\"fields\":\x7b\x7d\x7d"))
            (.obj [(js "total_tokens", .num false 42 0)])) 2 2
    (.str (js "\x7b\"overall_eligibility\":\"green\",\"fields\":\x7b\x7d\x7d"))
    (.obj [(js "total_tokens", .num false 42 0)]) (by decide) (by decide) rfl rfl
  ⟨h.1 EXTRACTION_SCHEMA (js "job text")
      (fun i h1 h2 => by
        have : i = 1 := by omega
        subst this; rfl) rfl rfl,
   h.2 .null none
      (fun i h1 h2 => by
        have : i = 1 := by omega
        subst this; rfl) rfl⟩

/-- C6. For every `max_retries ≥ 1`, when every attempt of `compareJd` is a
transport failure, the call resolves with the fixed grey fallback as `data`
and `{total_tokens: 0}` as `usage`, after exactly `max_retries` network
calls. -/
theorem C6_compareJd_transport_failures_give_grey_fallback (net : Network)
    (extracted_json : JsVal) (profile_json : Option JsVal) (max_retries : Int)
    (hmax : 1 ≤ max_retries)
    (hfail : ∀ i : Nat, 1 ≤ i → (i : Int) ≤ max_retries →
      (net i).isTransportFailure = true) :
    ∃ trace, compareJd false net extracted_json profile_json (some max_retries) =
        some ⟨.resolved (.obj [
          (js "data", .obj [
            (js "overall_eligibility", .str (js "grey")),
            (js "summary_explanation",
              .str (js "Comparator failed to return a valid structured result.")),
            (js "fields", .obj [])]),
          (js "usage", .obj [(js "total_tokens", .num false 0 0)])]), trace⟩ ∧
      fetchCount trace = max_retries.toNat := by
  obtain ⟨trace, htr, hcount⟩ :=
    compareLoop_transport net max_retries (max_retries.toNat + 1) 1 (by simpa using hmax)
      (by push_cast; omega) hfail
  refine ⟨trace, ?_, by rw [hcount]; push_cast; omega⟩
  simpa [compareJd] using htr

/-- C6 witness: three attempts; a thrown network error, a 500 and a 429. -/
theorem C6_compareJd_transport_failures_give_grey_fallback_witness :
    ∃ trace, compareJd false
        (fun i => if i = 1 then .threw ⟨js "Failed to fetch"⟩
          else if i = 2 then .notOk 500 (js "oops") else .notOk 429 (js "slow down"))
        .null none (some 3) =
        some ⟨.resolved (.obj [
          (js "data", .obj [
            (js "overall_eligibility", .str (js "grey")),
            (js "summary_explanation",
              .str (js "Comparator failed to return a valid structured result.")),
            (js "fields", .obj [])]),
          (js "usage", .obj [(js "total_tokens", .num false 0 0)])]), trace⟩ ∧
      fetchCount trace = (3 : Int).toNat :=
  C6_compareJd_transport_failures_give_grey_fallback _ .null none 3 (by decide)
    (fun i _ _ => by
      by_cases h1 : i = 1
      · simp [h1, Outcome.isTransportFailure]
      · by_cases h2 : i = 2
        · simp [h2, Outcome.isTransportFailure]
        · simp [h1, h2, Outcome.isTransportFailure])

/-- C7 (code defect). When the last attempt of `compareJd` has a success
status but empty, unparseable or structurally invalid content, the loop ends
and nothing is returned: the promise resolves with `undefined`, not with the
grey fallback. Shown for `max_retries` omitted (1) with empty content, with
content that is not JSON and with JSON that lacks `fields`, and for
`max_retries = 2` after a thrown first attempt. -/
theorem C7_compareJd_invalid_last_attempt_resolves_undefined :
    compareJd false (fun _ => .ok (.str (js "")) zeroUsage) .null none none =
        some ⟨.resolved .undefined, [.fetch 1]⟩ ∧
      compareJd false (fun _ => .ok (.str (js "Sorry, I cannot help.")) zeroUsage)
          .null none none =
        some ⟨.resolved .undefined, [.fetch 1]⟩ ∧
      compareJd false (fun _ => .ok (.str (js "\x7b\"overall_eligibility\":\"red\"\x7d")) zeroUsage)
          .null none none =
        some ⟨.resolved .undefined, [.fetch 1]⟩ ∧
      compareJd false
          (fun i => if i = 1 then .threw ⟨js "Failed to fetch"⟩
            else .ok (.str (js "not json")) zeroUsage)
          .null none (some 2) =
        some ⟨.resolved .undefined, [.fetch 1, .wait 500, .fetch 2]⟩ :=
  ⟨rfl, rfl, rfl, rfl⟩

/-- C8 (as stated, refuted). When both attempts of `extract` throw, the call
rejects with the error of the second attempt instead of resolving. -/
theorem C8_extract_rejects_counterexample :
    extract false (fun _ => .threw ⟨js "Failed to fetch"⟩) (js "job text") =
      some ⟨.rejected ⟨js "Failed to fetch"⟩, [.fetch 1, .wait 500, .fetch 2]⟩ :=
  rfl

/-- C8 (amended). `extract(text)` makes at most two attempts. When the first
attempt is accepted it resolves, after that one call, with
`{data: parsed, usage}` of the first attempt. Otherwise a second call is made
(after one 500 ms wait when the first attempt was a transport failure): when
the second attempt is accepted it resolves with `{data: parsed, usage}` of the
second attempt; when the second attempt has a success status but is not
accepted it resolves with the schema-complete fallback (every key of
`EXTRACTION_SCHEMA`, `[]` for a hint containing `list` and `null` otherwise)
and usage `{total_tokens: 0}`; when the second attempt is a transport failure
it rejects with the error of that attempt. In sample-data mode it resolves
with the canned object. -/
theorem C8_extract_resolves_unless_last_attempt_throws (net : Network) (jd_text : JsString) :
    (∀ content usage, net 1 = .ok content usage → extractAccepts (net 1) = true →
        extract false net jd_text =
          some ⟨.resolved (.obj [(js "data", tryParseJson content), (js "usage", usage)]),
            [.fetch 1]⟩) ∧
      (extractAccepts (net 1) = false →
        (∀ content usage, net 2 = .ok content usage → extractAccepts (net 2) = true →
          extract false net jd_text =
            some ⟨.resolved (.obj [(js "data", tryParseJson content), (js "usage", usage)]),
              if (net 1).isTransportFailure then [.fetch 1, .wait 500, .fetch 2]
              else [.fetch 1, .fetch 2]⟩) ∧
        (extractAccepts (net 2) = false → (net 2).isTransportFailure = false →
          extract false net jd_text =
            some ⟨.resolved (.obj [
                (js "data", .obj (EXTRACTION_SCHEMA.map
                  (fun kv => (kv.1, if includes kv.2 (js "list") then .arr [] else .null)))),
                (js "usage", .obj [(js "total_tokens", .num false 0 0)])]),
              if (net 1).isTransportFailure then [.fetch 1, .wait 500, .fetch 2]
              else [.fetch 1, .fetch 2]⟩) ∧
        (∀ e, (net 2).error = some e →
          extract false net jd_text =
            some ⟨.rejected e,
              if (net 1).isTransportFailure then [.fetch 1, .wait 500, .fetch 2]
              else [.fetch 1, .fetch 2]⟩)) ∧
      extract true net jd_text =
        some ⟨.resolved (.obj [(js "data", sampleExtractedData),
          (js "usage", .obj [(js "total_tokens", .num false 0 0)])]), [.wait 500]⟩ := by
  have hnd : (EXTRACTION_SCHEMA.map Prod.fst).Nodup := by decide
  have hproto : js "__proto__" ∉ EXTRACTION_SCHEMA.map Prod.fst := by decide
  have hfb := emptyFromSchema_eq EXTRACTION_SCHEMA hnd hproto
  refine ⟨?_, ?_, rfl⟩
  · intro content usage hok ha
    rw [extract_two_attempts]
    rcases extractTry_cases (net 1) with ⟨c1, u1, e1, b1, t1⟩ | ⟨b1, f1, t1⟩ | ⟨x1, b1, f1, r1, t1⟩
    · rw [t1]
      rw [hok] at e1
      cases e1
      rfl
    · rw [ha] at b1; exact absurd b1 (by simp)
    · rw [ha] at b1; exact absurd b1 (by simp)
  · intro a1
    rcases extractTry_cases (net 1) with ⟨c1, u1, e1, b1, t1⟩ | ⟨b1, f1, t1⟩ | ⟨x1, b1, f1, r1, t1⟩
    · rw [a1] at b1; exact absurd b1 (by simp)
    all_goals
      refine ⟨?_, ?_, ?_⟩
      · intro content usage hok ha
        rw [extract_two_attempts, t1]
        rcases extractTry_cases (net 2) with
          ⟨c2, u2, e2, b2, t2⟩ | ⟨b2, f2, t2⟩ | ⟨x2, b2, f2, r2, t2⟩
        · rw [t2]
          rw [hok] at e2
          cases e2
          simp [f1, reply]
        · rw [ha] at b2; exact absurd b2 (by simp)
        · rw [ha] at b2; exact absurd b2 (by simp)
      · intro a2 nf2
        rw [extract_two_attempts, t1]
        rcases extractTry_cases (net 2) with
          ⟨c2, u2, e2, b2, t2⟩ | ⟨b2, f2, t2⟩ | ⟨x2, b2, f2, r2, t2⟩
        · rw [a2] at b2; exact absurd b2 (by simp)
        · rw [t2, hfb]
          simp [f1, reply, zeroUsage, defaultFor]
        · rw [nf2] at f2; exact absurd f2 (by simp)
      · intro e he
        rw [extract_two_attempts, t1, extractTry_of_error _ e he]
        simp [f1]

/-- C8 witness: the first attempt returns no content and the second returns an
object (resolves with that object after two calls and no wait); both attempts
answer with status 503 (rejects with the second error after two calls and one
wait). -/
theorem C8_extract_resolves_unless_last_attempt_throws_witness :
    extract false
        (fun i => if i = 1 then .ok .null .undefined
          else .ok (.str (js "\x7b\"title\": \"Dev\"\x7d")) zeroUsage)
        (js "job text") =
      some ⟨.resolved (.obj [(js "data", tryParseJson (.str (js "\x7b\"title\": \"Dev\"\x7d"))),
        (js "usage", zeroUsage)]), [.fetch 1, .fetch 2]⟩ ∧
    extract false (fun _ => .notOk 503 (js "busy")) (js "job text") =
      some ⟨.rejected ⟨js "API request failed with status 503: busy"⟩,
        [.fetch 1, .wait 500, .fetch 2]⟩ :=
  ⟨((C8_extract_resolves_unless_last_attempt_throws
        (fun i => if i = 1 then .ok .null .undefined
          else .ok (.str (js "\x7b\"title\": \"Dev\"\x7d")) zeroUsage)
        (js "job text")).2.1 rfl).1 _ _ rfl rfl,
   ((C8_extract_resolves_unless_last_attempt_throws
        (fun _ => .notOk 503 (js "busy")) (js "job text")).2.1 rfl).2.2 _ rfl⟩

/-- C9 (as stated, refuted). The model answers `{}` on the first attempt; the
answer is accepted and returned as `data` unchanged, so the key `title`
declared in `EXTRACTION_SCHEMA` is missing. -/
theorem C9_accepted_answer_omits_keys_counterexample :
    extract false (fun _ => .ok (.str (js "\x7b\x7d")) zeroUsage) (js "job text") =
        some ⟨.resolved (reply (.obj []) zeroUsage), [.fetch 1]⟩ ∧
      js "title" ∈ EXTRACTION_SCHEMA.map Prod.fst ∧
      hasProp (.obj []) (js "title") = false :=
  ⟨rfl, by decide, rfl⟩

/-- C9 (amended). When neither attempt is accepted and the second attempt is
not a transport failure, the object `extract` returns as `data` contains every
key declared in `EXTRACTION_SCHEMA`, with an empty sequence when the hint
contains `list` and `null` otherwise. An accepted model answer is returned
unchanged. -/
theorem C9_fallback_contains_every_schema_key (net : Network) (jd_text : JsString) :
    (extractAccepts (net 1) = false → extractAccepts (net 2) = false →
        (net 2).isTransportFailure = false →
        ∃ props trace,
          extract false net jd_text = some ⟨.resolved (reply (.obj props) zeroUsage), trace⟩ ∧
          ∀ kv ∈ EXTRACTION_SCHEMA,
            lookupProp props kv.1 =
              some (if includes kv.2 (js "list") then .arr [] else .null)) ∧
      (∀ content usage, net 1 = .ok content usage → extractAccepts (net 1) = true →
        extract false net jd_text =
          some ⟨.resolved (reply (tryParseJson content) usage), [.fetch 1]⟩) := by
  have hnd : (EXTRACTION_SCHEMA.map Prod.fst).Nodup := by decide
  have hproto : js "__proto__" ∉ EXTRACTION_SCHEMA.map Prod.fst := by decide
  constructor
  · intro a1 a2 f2
    rw [extract_two_attempts]
    have ht2 : extractTry (net 2) = .fellThrough := by
      rcases extractTry_cases (net 2) with
        ⟨c2, u2, e2, b2, t2⟩ | ⟨b2, g2, t2⟩ | ⟨x2, b2, g2, r2, t2⟩
      · rw [a2] at b2; exact absurd b2 (by simp)
      · exact t2
      · rw [f2] at g2; exact absurd g2 (by simp)
    have hlook : ∀ kv ∈ EXTRACTION_SCHEMA,
        lookupProp (EXTRACTION_SCHEMA.map (fun kv => (kv.1, defaultFor kv.2))) kv.1 =
          some (if includes kv.2 (js "list") then .arr [] else .null) :=
      fun kv hkv => lookupProp_map EXTRACTION_SCHEMA defaultFor hnd kv hkv
    rcases extractTry_cases (net 1) with ⟨c1, u1, e1, b1, t1⟩ | ⟨b1, f1, t1⟩ | ⟨x1, b1, f1, r1, t1⟩
    · rw [a1] at b1; exact absurd b1 (by simp)
    · rw [t1, ht2, emptyFromSchema_eq EXTRACTION_SCHEMA hnd hproto]
      exact ⟨_, _, rfl, hlook⟩
    · rw [t1, ht2, emptyFromSchema_eq EXTRACTION_SCHEMA hnd hproto]
      exact ⟨_, _, rfl, hlook⟩
  · intro content usage hok ha
    rw [extract_two_attempts]
    rcases extractTry_cases (net 1) with ⟨c1, u1, e1, b1, t1⟩ | ⟨b1, f1, t1⟩ | ⟨x1, b1, f1, r1, t1⟩
    · rw [t1]
      rw [hok] at e1
      cases e1
      rfl
    · rw [ha] at b1; exact absurd b1 (by simp)
    · rw [ha] at b1; exact absurd b1 (by simp)

/-- C9 witness: both attempts return empty content, so the fallback is
returned; and an accepted answer `{"title": "Dev"}` is returned as is. -/
theorem C9_fallback_contains_every_schema_key_witness :
    (∃ props trace,
        extract false (fun _ => .ok (.str (js "")) .undefined) (js "job text") =
          some ⟨.resolved (reply (.obj props) zeroUsage), trace⟩ ∧
        ∀ kv ∈ EXTRACTION_SCHEMA,
          lookupProp props kv.1 =
            some (if includes kv.2 (js "list") then .arr [] else .null)) ∧
      extract false (fun _ => .ok (.str (js "\x7b\"title\": \"Dev\"\x7d")) zeroUsage)
          (js "job text") =
        some ⟨.resolved (reply (tryParseJson (.str (js "\x7b\"title\": \"Dev\"\x7d"))) zeroUsage),
          [.fetch 1]⟩ :=
  ⟨(C9_fallback_contains_every_schema_key
      (fun _ => .ok (.str (js "")) .undefined) (js "job text")).1 rfl rfl rfl,
   (C9_fallback_contains_every_schema_key
      (fun _ => .ok (.str (js "\x7b\"title\": \"Dev\"\x7d")) zeroUsage) (js "job text")).2
      _ _ rfl rfl⟩

/-- C10. For every well-formed field schema and every `max_retries`, when
every attempt of the extraction client completes with a success status but
empty or unparseable content, the call resolves with `data` equal to the
object that has exactly the schema's keys, in order, each mapped to `[]` when
its hint contains `list` and to `null` otherwise, and with usage
`{total_tokens: 0}`; no timer wait happens. For the schema
`{title: "string|null", skills: "list[string]|[]"}` the data is
`{title: null, skills: []}`. -/
theorem C10_unusable_content_gives_schema_fallback (net : Network) (jd_text : JsString)
    (max_retries : Int)
    (hfail : ∀ i : Nat, 1 ≤ i → (i : Int) ≤ max_retries →
      ∃ content usage, net i = .ok content usage ∧
        (truthy content = false ∨ tryParseJson content = .null)) :
    (∀ schema : Schema, schema.wellFormed →
        ∃ trace, extractWithLlm false schema net jd_text (some max_retries) =
            some ⟨.resolved (.obj [
              (js "data", .obj (schema.map
                (fun kv => (kv.1, if includes kv.2 (js "list") then .arr [] else .null)))),
              (js "usage", .obj [(js "total_tokens", .num false 0 0)])]), trace⟩ ∧
          waitCount trace = 0) ∧
      (∃ trace, extractWithLlm false
            [(js "title", js "string|null"), (js "skills", js "list[string]|[]")]
            net jd_text (some max_retries) =
          some ⟨.resolved (.obj [
            (js "data", .obj [(js "title", .null), (js "skills", .arr [])]),
            (js "usage", .obj [(js "total_tokens", .num false 0 0)])]), trace⟩) := by
  have hft : ∀ i : Nat, 1 ≤ i → (i : Int) ≤ max_retries → extractTry (net i) = .fellThrough := by
    intro i h1 h2
    obtain ⟨content, usage, e, h⟩ := hfail i h1 h2
    rw [e]
    exact extractTry_of_unusable content usage h
  have key : ∀ schema : Schema, (schema.map Prod.fst).Nodup →
      js "__proto__" ∉ schema.map Prod.fst →
      ∃ trace, extractWithLlm false schema net jd_text (some max_retries) =
          some ⟨.resolved (reply (.obj (schema.map (fun kv => (kv.1, defaultFor kv.2))))
            zeroUsage), trace⟩ ∧ waitCount trace = 0 := by
    intro schema hnd hproto
    obtain ⟨trace, htr, _, hwait⟩ :=
      extractLoop_unusable schema net max_retries (max_retries.toNat + 1) 1
        (by push_cast; omega) hft
    refine ⟨trace, ?_, hwait⟩
    rw [← emptyFromSchema_eq schema hnd hproto]
    simpa [extractWithLlm] using htr
  constructor
  · intro schema hwf
    exact key schema hwf.1 hwf.2
  · obtain ⟨trace, htr, _⟩ :=
      key [(js "title", js "string|null"), (js "skills", js "list[string]|[]")] (by decide)
        (by decide)
    exact ⟨trace, htr⟩

/-- C10 witness: `EXTRACTION_SCHEMA`, `max_retries = 3`, every answer has
empty content. -/
theorem C10_unusable_content_gives_schema_fallback_witness :
    ∃ trace, extractWithLlm false EXTRACTION_SCHEMA (fun _ => .ok (.str (js "")) .undefined)
        (js "job text") (some 3) =
      some ⟨.resolved (.obj [
        (js "data", .obj (EXTRACTION_SCHEMA.map
          (fun kv => (kv.1, if includes kv.2 (js "list") then .arr [] else .null)))),
        (js "usage", .obj [(js "total_tokens", .num false 0 0)])]), trace⟩ ∧
      waitCount trace = 0 :=
  (C10_unusable_content_gives_schema_fallback (fun _ => .ok (.str (js "")) .undefined)
    (js "job text") 3 (fun _ _ _ => ⟨_, _, rfl, Or.inl rfl⟩)).1 EXTRACTION_SCHEMA
    ⟨by decide, by decide⟩

/-- C11. In the extraction client, for every `max_retries ≥ 1`, when no
earlier attempt is accepted and the final attempt is a transport failure
(the call throws or returns a non-success status), `extractWithLlm` rejects
with the error of that final attempt. Every attempt `1 .. max_retries` is
made: failures of the earlier attempts, transport failures included, are
swallowed and followed by the next attempt. -/
theorem C11_extractWithLlm_rejects_with_last_error (schema : Schema) (net : Network)
    (jd_text : JsString) (max_retries : Int) (e : JsError) (hmax : 1 ≤ max_retries)
    (hfail : ∀ i : Nat, 1 ≤ i → (i : Int) < max_retries → extractAccepts (net i) = false)
    (hlast : (net max_retries.toNat).error = some e) :
    ∃ trace, extractWithLlm false schema net jd_text (some max_retries) =
        some ⟨.rejected e, trace⟩ ∧
      fetches trace = List.range' 1 max_retries.toNat := by
  obtain ⟨trace, htr, hf⟩ :=
    extractLoop_last_throws schema net max_retries max_retries.toNat e (by omega)
      (extractTry_of_error _ e hlast) (max_retries.toNat + 1) 1 (by omega) (by omega)
      (fun i h1 h2 => hfail i h1 (by omega))
  refine ⟨trace, by simpa [extractWithLlm] using htr, ?_⟩
  rw [hf]
  congr 1
  omega

/-- C11 witness: three attempts; a thrown error, an answer without JSON and a
final status 500. -/
theorem C11_extractWithLlm_rejects_with_last_error_witness :
    ∃ trace, extractWithLlm false EXTRACTION_SCHEMA
        (fun i => if i = 1 then .threw ⟨js "Failed to fetch"⟩
          else if i = 2 then .ok (.str (js "no json here")) .undefined
          else .notOk 500 (js "oops"))
        (js "job text") (some 3) =
        some ⟨.rejected ⟨js "API request failed with status 500: oops"⟩, trace⟩ ∧
      fetches trace = List.range' 1 (3 : Int).toNat :=
  C11_extractWithLlm_rejects_with_last_error EXTRACTION_SCHEMA _ (js "job text") 3 _
    (by decide)
    (fun i h1 h2 => by
      have h3 : i = 1 ∨ i = 2 := by omega
      rcases h3 with h3 | h3 <;> subst h3 <;> rfl)
    rfl

/-- C12 (as stated, refuted). With `max_retries = 2`, a first answer that
fails validation and a second answer that is accepted, both pipelines make
two network calls and no timer wait at all happens between them. -/
theorem C12_no_delay_after_validation_failure_counterexample :
    extractWithLlm false EXTRACTION_SCHEMA
        (fun i => if i = 1 then .ok (.str (js "not json")) zeroUsage
          else .ok (.str (js "\x7b\"overall_eligibility\":\"green\",\"fields\":\x7b\x7d\x7d")) zeroUsage)
        (js "job text") (some 2) =
      some ⟨.resolved (reply
          (.obj [(js "overall_eligibility", .str (js "green")), (js "fields", .obj [])])
          zeroUsage), [.fetch 1, .fetch 2]⟩ ∧
    compareJd false
        (fun i => if i = 1 then .ok (.str (js "not json")) zeroUsage
          else .ok (.str (js "\x7b\"overall_eligibility\":\"green\",\"fields\":\x7b\x7d\x7d")) zeroUsage)
        .null none (some 2) =
      some ⟨.resolved (reply
          (.obj [(js "overall_eligibility", .str (js "green")), (js "fields", .obj [])])
          zeroUsage), [.fetch 1, .fetch 2]⟩ ∧
    waitCount [.fetch 1, .fetch 2] = 0 :=
  ⟨rfl, rfl, rfl⟩

/-- C12 (amended). Retry accounting with `max_retries = 2` when the second
attempt is accepted, in both pipelines: if the first attempt has a success
status but fails validation, exactly two network calls are made and no delay
occurs; if the first attempt is a transport failure, exactly two network calls
are made and exactly one 500 ms delay occurs, between the two calls. -/
theorem C12_retry_accounting (net : Network) :
    (∀ (schema : Schema) (jd_text : JsString),
        extractAccepts (net 1) = false → extractAccepts (net 2) = true →
        ∃ v, extractWithLlm false schema net jd_text (some 2) =
          some ⟨.resolved v,
            if (net 1).isTransportFailure then [.fetch 1, .wait 500, .fetch 2]
            else [.fetch 1, .fetch 2]⟩) ∧
      (∀ (extracted_json : JsVal) (profile_json : Option JsVal),
        compareAccepts (net 1) = false → compareAccepts (net 2) = true →
        ∃ v, compareJd false net extracted_json profile_json (some 2) =
          some ⟨.resolved v,
            if (net 1).isTransportFailure then [.fetch 1, .wait 500, .fetch 2]
            else [.fetch 1, .fetch 2]⟩) := by
  constructor
  · intro schema jd_text a1 a2
    rcases extractTry_cases (net 2) with ⟨c2, u2, e2, b2, t2⟩ | ⟨b2, f2, t2⟩ | ⟨x2, b2, f2, r2, t2⟩
    · rcases extractTry_cases (net 1) with
        ⟨c1, u1, e1, b1, t1⟩ | ⟨b1, f1, t1⟩ | ⟨x1, b1, f1, r1, t1⟩
      · rw [a1] at b1; exact absurd b1 (by simp)
      · exact ⟨reply (tryParseJson c2) u2, by simp [extractWithLlm, extractLoop, t1, t2, f1, Run.after]⟩
      · exact ⟨reply (tryParseJson c2) u2, by simp [extractWithLlm, extractLoop, t1, t2, f1, Run.after]⟩
    · rw [a2] at b2; exact absurd b2 (by simp)
    · rw [a2] at b2; exact absurd b2 (by simp)
  · intro extracted_json profile_json a1 a2
    rcases compareTry_cases (net 2) with ⟨c2, u2, e2, b2, t2⟩ | ⟨b2, f2, t2⟩ | ⟨x2, b2, f2, r2, t2⟩
    · rcases compareTry_cases (net 1) with
        ⟨c1, u1, e1, b1, t1⟩ | ⟨b1, f1, t1⟩ | ⟨x1, b1, f1, r1, t1⟩
      · rw [a1] at b1; exact absurd b1 (by simp)
      · exact ⟨reply (tryParseJson c2) u2, by simp [compareJd, compareLoop, t1, t2, f1, Run.after]⟩
      · exact ⟨reply (tryParseJson c2) u2, by simp [compareJd, compareLoop, t1, t2, f1, Run.after]⟩
    · rw [a2] at b2; exact absurd b2 (by simp)
    · rw [a2] at b2; exact absurd b2 (by simp)

/-- C12 witness: the first call answers with status 429, the second with a
valid comparison object; one delay between two calls in both pipelines. -/
theorem C12_retry_accounting_witness :
    (∃ v, extractWithLlm false EXTRACTION_SCHEMA
        (fun i => if i = 1 then .notOk 429 (js "slow down")
          else .ok (.str (js "\x7b\"overall_eligibility\":\"green\",\"fields\":\x7b\x7d\x7d")) zeroUsage)
        (js "job text") (some 2) =
      some ⟨.resolved v, [.fetch 1, .wait 500, .fetch 2]⟩) ∧
    (∃ v, compareJd false
        (fun i => if i = 1 then .notOk 429 (js "slow down")
          else .ok (.str (js "\x7b\"overall_eligibility\":\"green\",\"fields\":\x7b\x7d\x7d")) zeroUsage)
        .null none (some 2) =
      some ⟨.resolved v, [.fetch 1, .wait 500, .fetch 2]⟩) :=
  ⟨(C12_retry_accounting _).1 EXTRACTION_SCHEMA (js "job text") rfl rfl,
   (C12_retry_accounting _).2 .null none rfl rfl⟩

set_option maxRecDepth 1000000

/-- C13 (as stated, refuted). For the job text `title` and the default schema
the trimmed text occurs three times in the prompt: in the field list, in the
template and as the job description. -/
theorem C13_job_text_occurs_more_than_once_counterexample :
    (get_extraction_prompt (js " title ") none).map
        (countOccurrences (trim (js " title "))) = some 3 ∧
      trim (js " title ") = js "title" := by
  constructor
  · rfl
  · rfl

/-- C13 (amended). For every field schema `S` and job text `T`, the prompt
`get_extraction_prompt(T, S)` is `head + trim(T) + tail`, where `head` and
`tail` do not depend on `T` and `tail` is the closing rule and the final
directive: the builder inserts the trimmed job text once and the prompt
contains it (at least once; it can occur again where the fixed wording or the
schema contain the same text). Every key of `S` occurs verbatim in `head`. -/
theorem C13_prompt_contains_keys_and_job_text (schema : Schema) :
    ∃ head,
      (∀ jd_text,
        get_extraction_prompt jd_text (some schema) =
            some (head ++ trim jd_text ++ js "\n--------\n\nReturn ONLY the JSON object.") ∧
          1 ≤ countOccurrences (trim jd_text)
            (head ++ trim jd_text ++ js "\n--------\n\nReturn ONLY the JSON object.")) ∧
        ∀ kv ∈ schema, ∃ a b, head = a ++ kv.1 ++ b := by
  obtain ⟨template_json, _, hp⟩ := get_extraction_prompt_shape schema
  refine ⟨_, fun jd_text => ⟨hp jd_text, countOccurrences_pos _ _ _⟩, ?_⟩
  intro kv hkv
  obtain ⟨a, b, hab⟩ := intercalate_mem (js "\n")
    (js "- " ++ kv.1 ++ js ": " ++ kv.2)
    (schema.map (fun kv => js "- " ++ kv.1 ++ js ": " ++ kv.2))
    (List.mem_map_of_mem _ hkv)
  refine ⟨EXTRACTION_INSTRUCTIONS_HEADER ++ js "\n\n" ++
      js "Schema fields (name: type/hint):\n\n" ++ a ++ js "- ",
    js ": " ++ kv.2 ++ b ++ js "\n\n" ++
      js "Please return a single JSON object following this template EXACTLY:\n\n" ++
      template_json ++ js "\n\n" ++ js "Job description:\n--------\n", ?_⟩
  unfold _schema_fields_text
  rw [hab]
  simp only [List.append_assoc]

/-- C13 witness: a two-field schema and the job text ` Dev job `. -/
theorem C13_prompt_contains_keys_and_job_text_witness :
    ∃ head,
      get_extraction_prompt (js " Dev job ")
          (some [(js "title", js "string|null"), (js "skills", js "list[string]|[]")]) =
        some (head ++ trim (js " Dev job ") ++ js "\n--------\n\nReturn ONLY the JSON object.") ∧
      (∃ a b, head = a ++ js "title" ++ b) ∧ (∃ a b, head = a ++ js "skills" ++ b) :=
  (C13_prompt_contains_keys_and_job_text
      [(js "title", js "string|null"), (js "skills", js "list[string]|[]")]).imp
    (fun _ h => ⟨(h.1 (js " Dev job ")).1,
      h.2 (js "title", js "string|null") (by simp),
      h.2 (js "skills", js "list[string]|[]") (by simp)⟩)

/-- C14 (as stated, refuted). For the schema with the two fields `__proto__`
and `a`, the template object and the fallback object have the key `a` only:
the assignment to `__proto__` defines no property, so a key of the schema is
missing from both. -/
theorem C14_proto_key_is_dropped_counterexample :
    template_obj [(js "__proto__", js "string | null"), (js "a", js "list[string] | []")] =
        .obj [(js "a", .arr [])] ∧
      emptyFromSchema [(js "__proto__", js "string | null"), (js "a", js "list[string] | []")] =
        .obj [(js "a", .arr [])] ∧
      hasProp (.obj [(js "a", .arr [])]) (js "__proto__") = false ∧
      JSON.stringify
          (template_obj
            [(js "__proto__", js "string | null"), (js "a", js "list[string] | []")]) =
        some (js "\x7b\n  \"a\": []\n\x7d") :=
  ⟨rfl, rfl, rfl, rfl⟩

/-- C14 (amended). For every field schema (entries with distinct names) the
template object built inside `get_extraction_prompt` and the fallback object
built by `extractWithLlm` are equal, and each has exactly the schema's keys
other than `__proto__`, in schema order, with `[]` for every key whose hint
contains `list` and `null` for every other key. When no field is named
`__proto__` each has exactly the schema's keys. -/
theorem C14_template_and_fallback_objects (schema : Schema) :
    template_obj schema = emptyFromSchema schema ∧
      ((schema.map Prod.fst).Nodup →
        template_obj schema =
            .obj ((schema.filter (fun kv => decide (kv.1 ≠ js "__proto__"))).map
              (fun kv => (kv.1, if includes kv.2 (js "list") then .arr [] else .null))) ∧
          emptyFromSchema schema =
            .obj ((schema.filter (fun kv => decide (kv.1 ≠ js "__proto__"))).map
              (fun kv => (kv.1, if includes kv.2 (js "list") then .arr [] else .null)))) ∧
      ((schema.map Prod.fst).Nodup → js "__proto__" ∉ schema.map Prod.fst →
        template_obj schema =
            .obj (schema.map
              (fun kv => (kv.1, if includes kv.2 (js "list") then .arr [] else .null))) ∧
          emptyFromSchema schema =
            .obj (schema.map
              (fun kv => (kv.1, if includes kv.2 (js "list") then .arr [] else .null)))) := by
  refine ⟨rfl, fun hnd => ?_, fun hnd hproto => ?_⟩
  · have h := emptyFromSchema_filter schema hnd
    exact ⟨h, h⟩
  · have h := emptyFromSchema_eq schema hnd hproto
    exact ⟨h, h⟩

/-- C14 witness: `EXTRACTION_SCHEMA`, which has distinct names and no field
named `__proto__`. -/
theorem C14_template_and_fallback_objects_witness :
    template_obj EXTRACTION_SCHEMA =
        .obj (EXTRACTION_SCHEMA.map
          (fun kv => (kv.1, if includes kv.2 (js "list") then .arr [] else .null))) ∧
      emptyFromSchema EXTRACTION_SCHEMA =
        .obj (EXTRACTION_SCHEMA.map
          (fun kv => (kv.1, if includes kv.2 (js "list") then .arr [] else .null))) :=
  (C14_template_and_fallback_objects EXTRACTION_SCHEMA).2.2 (by decide) (by decide)

/-- C15. In sample-data mode `extractWithLlm`, `extract` and `compareJd` make no
network call and resolve, after the simulated 500 ms wait, with exactly the
canned objects and usage `{total_tokens: 0}`, whatever the job text, the
schema, the extracted object, the profile, `max_retries` and the network. -/
theorem C15_sample_mode_bypasses_network (net : Network) (schema : Schema)
    (jd_text : JsString) (extracted_json : JsVal) (profile_json : Option JsVal)
    (max_retries : Option Int) :
    extractWithLlm true schema net jd_text max_retries =
        some ⟨.resolved (.obj [(js "data", sampleExtractedData),
          (js "usage", .obj [(js "total_tokens", .num false 0 0)])]), [.wait 500]⟩ ∧
      extract true net jd_text =
        some ⟨.resolved (.obj [(js "data", sampleExtractedData),
          (js "usage", .obj [(js "total_tokens", .num false 0 0)])]), [.wait 500]⟩ ∧
      compareJd true net extracted_json profile_json max_retries =
        some ⟨.resolved (.obj [(js "data", sampleComparisonResult),
          (js "usage", .obj [(js "total_tokens", .num false 0 0)])]), [.wait 500]⟩ ∧
      fetchCount [.wait 500] = 0 :=
  ⟨rfl, rfl, rfl, rfl⟩

/-- C16. The two comparison results that `compareJd` can return without a
model answer, the canned `sampleComparisonResult` and the grey fallback,
satisfy the Comparison Result invariant (a colour as `overall_eligibility`, a
string as `summary_explanation`, and `fields` an object whose every entry has
a colour, a string explanation and an evidence), and `validateOutputStruct`
accepts both. -/
theorem C16_canned_results_satisfy_invariant :
    isComparisonResult sampleComparisonResult = true ∧
      isComparisonResult compareFallback = true ∧
      validateOutputStruct sampleComparisonResult = true ∧
      validateOutputStruct compareFallback = true ∧
      (∀ net extracted_json profile_json max_retries,
        compareJd true net extracted_json profile_json max_retries =
          some ⟨.resolved (reply sampleComparisonResult zeroUsage), [.wait 500]⟩) ∧
      compareJd false (fun _ => .threw ⟨js "Failed to fetch"⟩) .null none none =
        some ⟨.resolved (reply compareFallback zeroUsage), [.fetch 1]⟩ := by
  refine ⟨by rfl, by rfl, by rfl, by rfl, fun _ _ _ _ => rfl, by rfl⟩

/-- C17. `tryParseJson` follows the first-brace/last-brace algorithm: for a
string `text`, the result is `null` when `{` or `}` is absent; with `s` the
index of the first `{` and `e` the index of the last `}`, the result is `null`
when `e ≤ s`, and otherwise it is the strict JSON parse of `text[s..e]`
(inclusive) when that parse succeeds and `null` when it fails. For the empty
string and for every input that is not a string the result is `null`. -/
theorem C17_first_brace_last_brace_algorithm (text : JsString) :
    (0x7B ∉ text ∨ 0x7D ∉ text → tryParseJson (.str text) = .null) ∧
      (∀ a r b t : JsString,
        text = a ++ 0x7B :: r → 0x7B ∉ a → text = b ++ 0x7D :: t → 0x7D ∉ t →
        (b.length ≤ a.length → tryParseJson (.str text) = .null) ∧
        (a.length < b.length →
          tryParseJson (.str text) =
            match JSON.parse ((text.drop a.length).take (b.length - a.length + 1)) with
            | some v => v
            | none => .null)) ∧
      (∀ v : JsVal, typeofJs v ≠ .string → tryParseJson v = .null) ∧
      tryParseJson (.str []) = .null := by
  refine ⟨?_, ?_, tryParseJson_of_not_string, rfl⟩
  · rintro (h | h)
    · simpa using tryParseJson_no_span text [] h (by simp)
    · simpa using tryParseJson_no_span [] text (by simp) h
  · intro a r b t e1 ha e2 ht
    have hstart : indexOf text 0x7B = a.length := by rw [e1]; exact indexOf_first _ _ _ ha
    have hstop : lastIndexOf text 0x7D = b.length := by rw [e2]; exact lastIndexOf_last _ _ _ ht
    have hlen : b.length + 1 ≤ text.length := by rw [e2]; simp
    constructor
    · intro hle
      rw [tryParseJson_str, hstart, hstop, if_pos (Or.inr (Or.inr (by omega)))]
    · intro hlt
      have hc : ¬ ((a.length : Int) = -1 ∨ (b.length : Int) = -1 ∨
          (b.length : Int) ≤ (a.length : Int)) := by
        rintro (h | h | h) <;> omega
      rw [tryParseJson_str, hstart, hstop, if_neg hc]
      have hsub : substring text (a.length : Int) ((b.length : Int) + 1) =
          (text.drop a.length).take (b.length - a.length + 1) := by
        unfold substring
        have h1 : min (a.length : Int).toNat text.length = a.length := by
          simp; omega
        have h2 : min ((b.length : Int) + 1).toNat text.length = b.length + 1 := by
          have : ((b.length : Int) + 1).toNat = b.length + 1 := by omega
          rw [this]; omega
        simp only [h1, h2]
        have h3 : max a.length (b.length + 1) = b.length + 1 := by omega
        have h4 : min a.length (b.length + 1) = a.length := by omega
        rw [h3, h4, List.drop_take]
        congr 1
        omega
      rw [hsub]

/-- C17 witness: in `ok }x{ "a": 1 } done` the first `{` is at index 5 and the
last `}` at index 14, and the parsed slice is `{ "a": 1 }`; in `} then {` the
last `}` comes first and the result is `null`. -/
theorem C17_first_brace_last_brace_algorithm_witness :
    tryParseJson (.str (js "ok \x7dx\x7b \"a\": 1 \x7d done")) =
        (match JSON.parse (((js "ok \x7dx\x7b \"a\": 1 \x7d done").drop (js "ok \x7dx").length).take
            ((js "ok \x7dx\x7b \"a\": 1 ").length - (js "ok \x7dx").length + 1)) with
          | some v => v
          | none => .null) ∧
      tryParseJson (.str (js "\x7d then \x7b")) = .null ∧
      tryParseJson (.str (js "no braces")) = .null ∧
      tryParseJson (.num false 7 0) = .null :=
  ⟨((C17_first_brace_last_brace_algorithm (js "ok \x7dx\x7b \"a\": 1 \x7d done")).2.1
      (js "ok \x7dx") (js " \"a\": 1 \x7d done") (js "ok \x7dx\x7b \"a\": 1 ") (js " done")
      rfl (by decide) rfl (by decide)).2 (by decide),
   ((C17_first_brace_last_brace_algorithm (js "\x7d then \x7b")).2.1
      (js "\x7d then ") [] [] (js " then \x7b") rfl (by decide) rfl (by decide)).1 (by decide),
   (C17_first_brace_last_brace_algorithm (js "no braces")).1 (Or.inl (by decide)),
   (C17_first_brace_last_brace_algorithm []).2.2.1 (.num false 7 0) (by decide)⟩

/-- C18. For every `max_retries` and every sequence of attempt outcomes each
pipeline settles after at most `max_retries` network calls (none when
`max_retries ≤ 0`); the calls are those of attempts `1, 2, ...` in this order,
and the call of attempt `i + 1` is made only when attempt `i` was not accepted
and `i < max_retries`. `extract` runs with `max_retries = 2`, and `compareJd`
without a `max_retries` argument runs with `max_retries = 1`. -/
theorem C18_bounded_sequential_attempts (net : Network) (max_retries : Int) :
    (∀ (schema : Schema) (jd_text : JsString),
        ∃ r, extractWithLlm false schema net jd_text (some max_retries) = some r ∧
          fetchCount r.trace ≤ max_retries.toNat ∧
          fetches r.trace = List.range' 1 (fetchCount r.trace) ∧
          ∀ i, 1 ≤ i → i + 1 ∈ fetches r.trace →
            extractAccepts (net i) = false ∧ (i : Int) < max_retries) ∧
      (∀ (extracted_json : JsVal) (profile_json : Option JsVal),
        ∃ r, compareJd false net extracted_json profile_json (some max_retries) = some r ∧
          fetchCount r.trace ≤ max_retries.toNat ∧
          fetches r.trace = List.range' 1 (fetchCount r.trace) ∧
          ∀ i, 1 ≤ i → i + 1 ∈ fetches r.trace →
            compareAccepts (net i) = false ∧ (i : Int) < max_retries) ∧
      (∀ (USE_SAMPLE_DATA : Bool) (jd_text : JsString),
        extract USE_SAMPLE_DATA net jd_text =
          extractWithLlm USE_SAMPLE_DATA EXTRACTION_SCHEMA net jd_text (some 2)) ∧
      (∀ (USE_SAMPLE_DATA : Bool) (extracted_json : JsVal) (profile_json : Option JsVal),
        compareJd USE_SAMPLE_DATA net extracted_json profile_json none =
          compareJd USE_SAMPLE_DATA net extracted_json profile_json (some 1)) := by
  refine ⟨?_, ?_, fun _ _ => rfl, fun _ _ _ => rfl⟩
  · intro schema jd_text
    obtain ⟨r, hr⟩ := extractWithLlm_total false schema net jd_text (some max_retries)
    have hloop : extractLoop schema net max_retries (max_retries.toNat + 1) 1 = some r := by
      simpa [extractWithLlm] using hr
    obtain ⟨n, hf, hb, hrej⟩ := extractLoop_fetches schema net max_retries _ 1 r hloop
    exact ⟨r, hr, attempts_of_fetches max_retries (fun j => extractAccepts (net j)) r.trace n
      hf hb hrej⟩
  · intro extracted_json profile_json
    obtain ⟨r, hr⟩ := compareJd_total false net extracted_json profile_json (some max_retries)
    have hloop : compareLoop net max_retries (max_retries.toNat + 1) 1 = some r := by
      simpa [compareJd] using hr
    obtain ⟨n, hf, hb, hrej⟩ := compareLoop_fetches net max_retries _ 1 r hloop
    exact ⟨r, hr, attempts_of_fetches max_retries (fun j => compareAccepts (net j)) r.trace n
      hf hb hrej⟩

/-- C18 witness: with `max_retries = 2` and a network that always answers with
status 503, both pipelines stop after at most two calls; with
`max_retries = 0` no call is made. -/
theorem C18_bounded_sequential_attempts_witness :
    (∃ r, extractWithLlm false EXTRACTION_SCHEMA (fun _ => .notOk 503 (js "busy"))
        (js "job text") (some 2) = some r ∧ fetchCount r.trace ≤ 2) ∧
      (∃ r, compareJd false (fun _ => .notOk 503 (js "busy")) .null none (some 0) = some r ∧
        fetchCount r.trace ≤ 0) :=
  ⟨((C18_bounded_sequential_attempts (fun _ => .notOk 503 (js "busy")) 2).1
      EXTRACTION_SCHEMA (js "job text")).imp (fun _ h => ⟨h.1, h.2.1⟩),
   ((C18_bounded_sequential_attempts (fun _ => .notOk 503 (js "busy")) 0).2.1
      .null none).imp (fun _ h => ⟨h.1, h.2.1⟩)⟩

/-- C19. The extraction stage accepts any parsed shape. Every result of
`tryParseJson` is `null` or an object, so for an attempt with a success status
the `try` block returns `{data: parsed, usage}` exactly when the content is
truthy (non-empty) and `tryParseJson(content)` is not `null`, and falls through
to the next attempt otherwise: the `typeof parsed === 'object'` test never
rejects a parsed result. An object without any schema key, `{}`, is accepted
as it is. -/
theorem C19_extraction_accepts_any_parsed_object (content usage : JsVal) :
    (tryParseJson content = .null ∨ ∃ props, tryParseJson content = .obj props) ∧
      (extractTry (.ok content usage) = .returned (reply (tryParseJson content) usage) ↔
        truthy content = true ∧ tryParseJson content ≠ .null) ∧
      (extractTry (.ok content usage) = .fellThrough ↔
        ¬ (truthy content = true ∧ tryParseJson content ≠ .null)) ∧
      extractTry (.ok (.str (js "\x7b\x7d")) usage) = .returned (reply (.obj []) usage) := by
  have hshape := tryParseJson_null_or_obj content
  refine ⟨hshape, ?_, ?_, rfl⟩
  · rcases hshape with h | ⟨props, h⟩
    · simp [extractTry, h, truthy]
    · by_cases hc : truthy content = true
      · simp [extractTry, h, truthy, typeofJs, hc]
      · simp [extractTry, hc]
  · rcases hshape with h | ⟨props, h⟩
    · simp [extractTry, h, truthy]
    · by_cases hc : truthy content = true
      · simp [extractTry, h, truthy, typeofJs, hc]
      · simp [extractTry, hc]

/-- C19 witness: the content `{"unknown": [1]}` is accepted although it has
no schema key. -/
theorem C19_extraction_accepts_any_parsed_object_witness :
    extractTry (.ok (.str (js "\x7b\"unknown\": [1]\x7d")) zeroUsage) =
      .returned (reply (tryParseJson (.str (js "\x7b\"unknown\": [1]\x7d"))) zeroUsage) :=
  (C19_extraction_accepts_any_parsed_object (.str (js "\x7b\"unknown\": [1]\x7d")) zeroUsage).2.1.mpr
    ⟨rfl, by
      rw [show tryParseJson (.str (js "\x7b\"unknown\": [1]\x7d")) =
        .obj [(js "unknown", .arr [.num false 1 0])] from rfl]
      exact JsVal.noConfusion⟩

/-- C20. For every field schema whose names and hints contain no line feed,
the field list rendered by `_schema_fields_text` has, when the schema is not
empty, exactly one line per schema field, in schema order, and the line of a
field is `- name: hint`; for the empty schema the list is the empty string.
The list is embedded in the extraction prompt. -/
theorem C20_field_list_lines (schema : Schema)
    (hnl : ∀ kv ∈ schema, 0x0A ∉ kv.1 ∧ 0x0A ∉ kv.2) :
    (schema ≠ [] →
        (_schema_fields_text schema).splitOn 0x0A =
          schema.map (fun kv => js "- " ++ kv.1 ++ js ": " ++ kv.2)) ∧
      _schema_fields_text [] = [] ∧
      ∀ jd_text, ∃ a b,
        get_extraction_prompt jd_text (some schema) =
          some (a ++ _schema_fields_text schema ++ b) := by
  refine ⟨?_, rfl, ?_⟩
  · intro hne
    have hsep : js "\n" = [0x0A] := by decide
    unfold _schema_fields_text
    rw [hsep]
    apply List.splitOn_intercalate
    · intro l hl
      obtain ⟨kv, hkv, e⟩ := List.mem_map.mp hl
      subst e
      have h1 : (0x0A : Nat) ∉ js "- " := by decide
      have h2 : (0x0A : Nat) ∉ js ": " := by decide
      simp only [List.mem_append, not_or]
      exact ⟨⟨⟨h1, (hnl kv hkv).1⟩, h2⟩, (hnl kv hkv).2⟩
    · simpa using hne
  · intro jd_text
    obtain ⟨template_json, _, hp⟩ := get_extraction_prompt_shape schema
    refine ⟨EXTRACTION_INSTRUCTIONS_HEADER ++ js "\n\n" ++
        js "Schema fields (name: type/hint):\n\n",
      js "\n\n" ++
        js "Please return a single JSON object following this template EXACTLY:\n\n" ++
        template_json ++ js "\n\n" ++ js "Job description:\n--------\n" ++
        trim jd_text ++ js "\n--------\n\nReturn ONLY the JSON object.", ?_⟩
    rw [hp jd_text]
    simp only [List.append_assoc]

/-- C20 witness: the two-field schema `title`, `skills`. -/
theorem C20_field_list_lines_witness :
    (_schema_fields_text [(js "title", js "string|null"), (js "skills", js "list[string]|[]")]).splitOn
        0x0A =
      [js "- title: string|null", js "- skills: list[string]|[]"] :=
  (C20_field_list_lines [(js "title", js "string|null"), (js "skills", js "list[string]|[]")]
    (by decide)).1 (by simp)

/-- C21. In both pipelines the 500 ms inter-attempt delay happens exactly
after an attempt that throws (network error or non-success status) and is not
the last attempt: the trace of a run is the calls of its attempts in order,
each throwing attempt with index below `max_retries` followed by one 500 ms
wait and no other attempt followed by a wait, so the number of delays equals
the number of throwing attempts with index below `max_retries`. An attempt
that completes with a success status (accepted or not) is followed by no
delay, and the run never ends with a delay. -/
theorem C21_delay_exactly_after_throwing_non_last_attempt (net : Network)
    (max_retries : Int) :
    (∀ (schema : Schema) (jd_text : JsString),
        ∃ r, extractWithLlm false schema net jd_text (some max_retries) = some r ∧
          r.trace = traceOfAttempts net max_retries (fetches r.trace) ∧
          waitCount r.trace =
            ((fetches r.trace).filter
              (fun i => (net i).isTransportFailure && decide ((i : Int) < max_retries))).length ∧
          ∀ ms, r.trace.getLast? ≠ some (.wait ms)) ∧
      (∀ (extracted_json : JsVal) (profile_json : Option JsVal),
        ∃ r, compareJd false net extracted_json profile_json (some max_retries) = some r ∧
          r.trace = traceOfAttempts net max_retries (fetches r.trace) ∧
          waitCount r.trace =
            ((fetches r.trace).filter
              (fun i => (net i).isTransportFailure && decide ((i : Int) < max_retries))).length ∧
          ∀ ms, r.trace.getLast? ≠ some (.wait ms)) := by
  have hcount : ∀ trace : List Event,
      trace = traceOfAttempts net max_retries (fetches trace) →
      waitCount trace =
        ((fetches trace).filter
          (fun i => (net i).isTransportFailure && decide ((i : Int) < max_retries))).length := by
    intro trace ht
    have h := waitCount_traceOfAttempts net max_retries (fetches trace)
    rw [← ht] at h
    exact h
  have hend : ∀ trace : List Event,
      ((1 : Int) ≤ max_retries → ∃ k, trace.getLast? = some (.fetch k)) →
      (¬ (1 : Int) ≤ max_retries → trace = []) →
      ∀ ms, trace.getLast? ≠ some (.wait ms) := by
    intro trace h1 h2 ms
    by_cases hm : (1 : Int) ≤ max_retries
    · obtain ⟨k, hk⟩ := h1 hm
      rw [hk]
      simp
    · rw [h2 hm]
      simp
  constructor
  · intro schema jd_text
    obtain ⟨r, hr⟩ := extractWithLlm_total false schema net jd_text (some max_retries)
    have hloop : extractLoop schema net max_retries (max_retries.toNat + 1) 1 = some r := by
      simpa [extractWithLlm] using hr
    obtain ⟨ht, hlast⟩ := extractLoop_trace schema net max_retries _ 1 r hloop
    refine ⟨r, hr, ht, hcount r.trace ht, hend r.trace (by simpa using hlast) ?_⟩
    intro hm
    have hm1 : ¬ (((1 : Nat) : Int) ≤ max_retries) := by simpa using hm
    simp only [extractLoop, if_neg hm1, Option.some.injEq] at hloop
    rw [← hloop]
  · intro extracted_json profile_json
    obtain ⟨r, hr⟩ := compareJd_total false net extracted_json profile_json (some max_retries)
    have hloop : compareLoop net max_retries (max_retries.toNat + 1) 1 = some r := by
      simpa [compareJd] using hr
    obtain ⟨ht, hlast⟩ := compareLoop_trace net max_retries _ 1 r hloop
    refine ⟨r, hr, ht, hcount r.trace ht, hend r.trace (by simpa using hlast) ?_⟩
    intro hm
    have hm1 : ¬ (((1 : Nat) : Int) ≤ max_retries) := by simpa using hm
    simp only [compareLoop, if_neg hm1, Option.some.injEq] at hloop
    rw [← hloop]

/-- C21 witness: `max_retries = 3`; the first call throws, the second answers
without JSON and the third answers with status 500. The only delay is the one
after the first call. -/
theorem C21_delay_exactly_after_throwing_non_last_attempt_witness :
    (∃ r, extractWithLlm false EXTRACTION_SCHEMA
          (fun i => if i = 1 then .threw ⟨js "Failed to fetch"⟩
            else if i = 2 then .ok (.str (js "no json here")) .undefined
            else .notOk 500 (js "oops"))
          (js "job text") (some 3) = some r ∧
        r.trace =
          traceOfAttempts
            (fun i => if i = 1 then .threw ⟨js "Failed to fetch"⟩
              else if i = 2 then .ok (.str (js "no json here")) .undefined
              else .notOk 500 (js "oops"))
            3 (fetches r.trace)) ∧
      (extractWithLlm false EXTRACTION_SCHEMA
          (fun i => if i = 1 then .threw ⟨js "Failed to fetch"⟩
            else if i = 2 then .ok (.str (js "no json here")) .undefined
            else .notOk 500 (js "oops"))
          (js "job text") (some 3)).map (fun r => r.trace) =
        some [.fetch 1, .wait 500, .fetch 2, .fetch 3] ∧
      (compareJd false
          (fun i => if i = 1 then .threw ⟨js "Failed to fetch"⟩
            else if i = 2 then .ok (.str (js "no json here")) .undefined
            else .notOk 500 (js "oops"))
          .null none (some 3)).map (fun r => r.trace) =
        some [.fetch 1, .wait 500, .fetch 2, .fetch 3] :=
  ⟨((C21_delay_exactly_after_throwing_non_last_attempt
        (fun i => if i = 1 then .threw ⟨js "Failed to fetch"⟩
          else if i = 2 then .ok (.str (js "no json here")) .undefined
          else .notOk 500 (js "oops")) 3).1 EXTRACTION_SCHEMA (js "job text")).imp
      (fun _ h => ⟨h.1, h.2.1⟩),
   rfl, rfl⟩

end JdPipeline
